import Mathlib

/-!
Quesa core objects: shared-object bookkeeping and bitmaps (E3Main.cpp), and the OpenGL
renderer (QORenderer.h).

A shallow embedding of the reference-count / edit-index code of `E3Shared`, of the element
and property methods of `OpaqueTQ3Object`, of the `E3Bitmap` functions and of the
`ESlowPathMask` constants, followed by the properties proved about them. The transparent
buffer, the VBO cache and the attribute resolution of the renderer are only declared in
QORenderer.h; they are modelled from the specification and marked as such.

Machine integers are mathematical integers reduced explicitly to their
32-bit range: `TQ3Uns32` values are naturals below `2^32`, `TQ3Int32` values
are integers in `[-2^31, 2^31)`, and signed arithmetic wraps in two's
complement. Floats that are only compared or copied are rationals.
-/

namespace Quesa

/-! ## Machine integers -/

/-- Reduction of a mathematical integer to the `TQ3Int32` range (two's complement). -/
def toInt32 (z : Int) : Int := (z + 2147483648) % 4294967296 - 2147483648

/-- Reduction of a mathematical integer to the `TQ3Uns32` range. -/
def toUns32 (z : Int) : Nat := (z % 4294967296).toNat

/-- Modelled from the spec: the macro `E3Integer_Abs` is defined outside these sources; the
spec describes the edit index as a counter whose sign bit is overloaded as the lock flag, so
the macro is the absolute value of its `TQ3Int32` argument, computed in `TQ3Int32`. -/
def E3Integer_Abs (n : Int) : Int := toInt32 (if n < 0 then -n else n)

/-! ## Status codes -/

/-- The two values of `TQ3Status`. -/
inductive TQ3Status where
  | kQ3Failure
  | kQ3Success
  deriving DecidableEq, Repr

open TQ3Status

/-! ## E3Shared: reference count and edit index -/

/-- Modelled from the spec: the declaration of `TQ3SharedData` (E3Main.h) is outside these
sources; the spec names its two fields, `refCount` and `editIndex` (a counter whose sign bit
is the lock flag). `refCount` is a `TQ3Uns32` (it is returned as such by
`GetReferenceCount`), `editIndex` is a `TQ3Int32`. -/
structure TQ3SharedData where
  refCount : Nat
  editIndex : Int
  deriving DecidableEq, Repr

namespace E3Shared

/-- The method `E3Shared::GetReferenceCount`. -/
def GetReferenceCount (this : TQ3SharedData) : Nat := this.refCount

/-- The method `E3Shared::GetEditIndex`: the absolute value of the stored index, returned as a
`TQ3Uns32`. -/
def GetEditIndex (this : TQ3SharedData) : Nat := toUns32 (E3Integer_Abs this.editIndex)

/-- The method `E3Shared::SetEditIndex`: the `TQ3Uns32` argument is stored in the `TQ3Int32`
field. -/
def SetEditIndex (this : TQ3SharedData) (inIndex : Nat) : TQ3SharedData :=
  { this with editIndex := toInt32 inIndex }

/-- The method `E3Shared::Edited`: the index is incremented only when it is not negative. -/
def Edited (this : TQ3SharedData) : TQ3SharedData × TQ3Status :=
  if this.editIndex ≥ 0 then
    ({ this with editIndex := toInt32 (this.editIndex + 1) }, kQ3Success)
  else
    (this, kQ3Success)

/-- The method `E3Shared::SetEditIndexLocked`. -/
def SetEditIndexLocked (this : TQ3SharedData) (inIsLocked : Bool) : TQ3SharedData :=
  if inIsLocked then
    { this with editIndex := toInt32 (- E3Integer_Abs this.editIndex) }
  else
    { this with editIndex := E3Integer_Abs this.editIndex }

/-- The method `E3Shared::IsEditIndexLocked`. -/
def IsEditIndexLocked (this : TQ3SharedData) : Bool := decide (this.editIndex < 0)

/-- The method `E3Shared::IsReferenced`. -/
def IsReferenced (this : TQ3SharedData) : Bool := decide (this.refCount > 1)

end E3Shared

/-- The function `e3shared_new`: initialises the shared instance data of a new object. -/
def e3shared_new (theObject : TQ3SharedData) : TQ3SharedData × TQ3Status :=
  ({ theObject with refCount := 1, editIndex := 1 }, kQ3Success)

/-- The function `E3Shared_AddReference`; the argument is a possibly null pointer, given with
the state of the object it points to. -/
def E3Shared_AddReference (theObject : Option TQ3SharedData) : Option TQ3SharedData :=
  match theObject with
  | none => none
  | some o => some { o with refCount := (o.refCount + 1) % 4294967296 }

/-- The method `E3Shared::GetReference`: adds a reference and returns `this`. -/
def E3Shared.GetReference (this : TQ3SharedData) : TQ3SharedData :=
  match E3Shared_AddReference (some this) with
  | some o => o
  | none => this

/-- Modelled from the spec: `DestroyInstance` (the class tree) is outside these sources; it
deletes the instance, after which no object remains behind the pointer. -/
def DestroyInstance (_theObject : TQ3SharedData) : Option TQ3SharedData := none

/-- The function `E3Shared_Dispose`. The argument is a possibly null pointer, given with the
state of the object it points to; the result is the object that remains behind the pointer,
if any, and a flag telling whether `DestroyInstance` was called. -/
def E3Shared_Dispose (inObject : Option TQ3SharedData) : Option TQ3SharedData × Bool :=
  match inObject with
  | none => (none, false)
  | some o =>
    let theObject : TQ3SharedData := { o with refCount := (o.refCount + 4294967295) % 4294967296 }
    if theObject.refCount = 0 then (DestroyInstance theObject, true) else (some theObject, false)

/-- The function `e3shared_duplicate`. Each of the four arguments is a possibly null pointer;
the two object pointers come with the state of their object, the two private-data pointers
are only tested against null (`Q3_REQUIRE_OR_RESULT (Q3_VALID_PTR (p), kQ3Failure)` returns
`kQ3Failure` for a null `p`). The result is the new state of `toObject` and the status. -/
def e3shared_duplicate (fromObject : Option TQ3SharedData) (fromPrivateData : Option Nat)
    (toObject : Option TQ3SharedData) (toPrivateData : Option Nat) :
    Option TQ3SharedData × TQ3Status :=
  match fromObject, fromPrivateData, toObject, toPrivateData with
  | some fromInstanceData, some _, some instanceData, some _ =>
    (some { instanceData with
              refCount := 1,
              editIndex := E3Integer_Abs fromInstanceData.editIndex }, kQ3Success)
  | _, _, _, _ => (toObject, kQ3Failure)

/-! ## Property tables -/

/-- Object and property types are four-character codes held in a `TQ3Int32`. -/
abbrev TQ3ObjectType := Int

/-- Element types are object types. -/
abbrev TQ3ElementType := Int

/-- The constant `kPropertyHashTableSize`. -/
def kPropertyHashTableSize : Nat := 32

/-- The memory block that `SetProperty` allocates for one property: a `TQ3Uns32` size header
followed by the payload bytes. -/
structure PropertyItem where
  dataSize : Nat
  data : List Nat
  deriving DecidableEq, Repr

/-- Modelled from the spec: the hash table module (`E3HashTable_Create`, `_Add`, `_Find`,
`_Remove`) is outside these sources; the spec only names it as the object's property table.
It is modelled as a finite map from key to item, kept as an association list. -/
abbrev E3HashTable := List (TQ3ObjectType × PropertyItem)

/-- Modelled from the spec: `E3HashTable_Create` returns an empty table, or null when the
allocation fails (`created = false`). -/
def E3HashTable_Create (_tableSize : Nat) (created : Bool) : Option E3HashTable :=
  if created then some [] else none

/-- Modelled from the spec: `E3HashTable_Find` returns the item stored under the key, or
null. -/
def E3HashTable_Find (theTable : E3HashTable) (theKey : TQ3ObjectType) : Option PropertyItem :=
  List.lookup theKey theTable

/-- Modelled from the spec: `E3HashTable_Remove` deletes what is stored under the key. -/
def E3HashTable_Remove (theTable : E3HashTable) (theKey : TQ3ObjectType) : E3HashTable :=
  theTable.filter (fun e => e.1 != theKey)

/-- Modelled from the spec: `E3HashTable_Add` stores the item under the key and returns
`kQ3Success`, or leaves the table alone and returns `kQ3Failure` when it cannot allocate
(`added = false`). -/
def E3HashTable_Add (theTable : E3HashTable) (theKey : TQ3ObjectType) (theItem : PropertyItem)
    (added : Bool) : E3HashTable × TQ3Status :=
  if added then ((theKey, theItem) :: theTable, kQ3Success) else (theTable, kQ3Failure)

/-- Outcomes of the allocations attempted during one call of `SetProperty`:
whether `E3HashTable_Create` returned a table, whether `Q3Memory_Allocate` returned a block
that holds the `TQ3Uns32` size header and the `inDataSize` payload bytes, and whether
`E3HashTable_Add` succeeded. -/
structure E3MemoryOutcome where
  tableCreated : Bool
  blockAllocated : Bool
  itemAdded : Bool
  deriving DecidableEq, Repr

/-! ## OpaqueTQ3Object -/

/-- Instance data of an object as seen by the methods of `OpaqueTQ3Object`: whether the object
tag is intact (`IsObjectValid`), whether the object is an instance of `E3Set`, the attached
element set (null or a set with state `σ`), the property table (null or a table), and the
`E3Shared` layer, present exactly when the object is an instance of `E3Shared`. -/
structure OpaqueTQ3Object (σ : Type) where
  isObjectValid : Bool
  isE3Set : Bool
  theSet : Option σ
  propertyTable : Option E3HashTable
  sharedData : Option TQ3SharedData

/-- Operations of the set class and of the shared-object utilities that these sources call
but do not define; they are parameters of the embedding. `Add`, `Q3Set_Clear` and
`Q3Set_Empty` act on an attached set; `selfAdd`, `selfClear` and `selfEmpty` are the same
methods invoked on an object that is itself a set. -/
structure E3SetClass (σ : Type) where
  kQ3ElementTypeSet : TQ3ElementType
  kQ3ObjectTypeSetElement : TQ3ElementType
  E3Set_New : Option σ
  Add : σ → TQ3ElementType → List Nat → σ × TQ3Status
  Q3Set_Clear : σ → TQ3ElementType → σ × TQ3Status
  Q3Set_Empty : σ → σ × TQ3Status
  E3Shared_Replace : Option σ → Option σ → Option σ
  selfAdd : OpaqueTQ3Object σ → TQ3ElementType → List Nat → OpaqueTQ3Object σ × TQ3Status
  selfClear : OpaqueTQ3Object σ → TQ3ElementType → OpaqueTQ3Object σ × TQ3Status
  selfEmpty : OpaqueTQ3Object σ → OpaqueTQ3Object σ × TQ3Status

/-- The function `E3Shared_IsOfMyClass`, on a possibly null object pointer. -/
def E3Shared_IsOfMyClass {σ : Type} (object : Option (OpaqueTQ3Object σ)) : Bool :=
  match object with
  | none => false
  | some o => if o.isObjectValid then o.sharedData.isSome else false

namespace OpaqueTQ3Object

variable {σ : Type}

/-- The call `((E3Shared*) this)->Edited()` on an object: the `E3Shared` layer is edited. -/
def castEdited (this : OpaqueTQ3Object σ) : OpaqueTQ3Object σ :=
  { this with sharedData := this.sharedData.map (fun sd => (E3Shared.Edited sd).1) }

end OpaqueTQ3Object

/-- Modelled from the spec: `E3Shared_Edited` (declared in E3Main.h) is outside these sources;
it "increases the edit index of an object", that is, it forwards to `E3Shared::Edited`. -/
def E3Shared_Edited {σ : Type} (theObject : OpaqueTQ3Object σ) : OpaqueTQ3Object σ :=
  theObject.castEdited

namespace OpaqueTQ3Object

variable {σ : Type}

/-- The method `OpaqueTQ3Object::RemoveProperty`. -/
def RemoveProperty (this : OpaqueTQ3Object σ) (inPropType : TQ3ObjectType) :
    OpaqueTQ3Object σ × TQ3Status :=
  match this.propertyTable with
  | none => (this, kQ3Failure)
  | some table =>
    match E3HashTable_Find table inPropType with
    | none => (this, kQ3Failure)
    | some _ =>
      let this1 : OpaqueTQ3Object σ :=
        { this with propertyTable := some (E3HashTable_Remove table inPropType) }
      if E3Shared_IsOfMyClass (some this1) then (E3Shared_Edited this1, kQ3Success)
      else (this1, kQ3Success)

/-- The method `OpaqueTQ3Object::SetProperty`. `inData` is the memory readable at the data
pointer, of which the first `inDataSize` bytes are copied. -/
def SetProperty (this : OpaqueTQ3Object σ) (inPropType : TQ3ObjectType) (inDataSize : Nat)
    (inData : List Nat) (mem : E3MemoryOutcome) : OpaqueTQ3Object σ × TQ3Status :=
  let this1 : OpaqueTQ3Object σ :=
    match this.propertyTable with
    | none =>
      { this with propertyTable := E3HashTable_Create kPropertyHashTableSize mem.tableCreated }
    | some _ => this
  match this1.propertyTable with
  | none => (this1, kQ3Failure)
  | some _ =>
    let this2 := (this1.RemoveProperty inPropType).1
    if mem.blockAllocated then
      let itemBuf : PropertyItem := { dataSize := inDataSize, data := inData.take inDataSize }
      match this2.propertyTable with
      | none => (this2, kQ3Failure)
      | some table =>
        let added := E3HashTable_Add table inPropType itemBuf mem.itemAdded
        let this3 : OpaqueTQ3Object σ := { this2 with propertyTable := some added.1 }
        if added.2 = kQ3Failure then (this3, added.2)
        else if E3Shared_IsOfMyClass (some this3) then (E3Shared_Edited this3, added.2)
        else (this3, added.2)
    else (this2, kQ3Failure)

/-- The method `OpaqueTQ3Object::GetProperty`. `outDataSize` and `outDataBuffer` are possibly
null pointers given with what they point to; the result is the status and the new contents
behind the two pointers. -/
def GetProperty (this : OpaqueTQ3Object σ) (inPropType : TQ3ObjectType) (inBufferSize : Nat)
    (outDataSize : Option Nat) (outDataBuffer : Option (List Nat)) :
    TQ3Status × Option Nat × Option (List Nat) :=
  match this.propertyTable with
  | none => (kQ3Failure, outDataSize, outDataBuffer)
  | some table =>
    match E3HashTable_Find table inPropType with
    | none => (kQ3Failure, outDataSize, outDataBuffer)
    | some itemAddr =>
      let dataSize : Nat :=
        match outDataBuffer with
        | none => itemAddr.dataSize
        | some _ => min itemAddr.dataSize inBufferSize
      let buffer : Option (List Nat) :=
        outDataBuffer.map (fun buf =>
          if dataSize > 0 then itemAddr.data.take dataSize ++ buf.drop dataSize else buf)
      (kQ3Success, outDataSize.map (fun _ => dataSize), buffer)

/-- The method `OpaqueTQ3Object::GetPropertyAddress`: null, or the address of the payload,
given here with the payload found there. -/
def GetPropertyAddress (this : OpaqueTQ3Object σ) (inPropType : TQ3ObjectType) :
    Option (List Nat) :=
  match this.propertyTable with
  | none => none
  | some table =>
    match E3HashTable_Find table inPropType with
    | none => none
    | some itemAddr => some itemAddr.data

/-- The method `OpaqueTQ3Object::AddElement`. -/
def AddElement (X : E3SetClass σ) (this : OpaqueTQ3Object σ) (theType : TQ3ElementType)
    (theData : List Nat) : OpaqueTQ3Object σ × TQ3Status :=
  let theType := if theType = X.kQ3ElementTypeSet then X.kQ3ObjectTypeSetElement else theType
  if this.isE3Set then X.selfAdd this theType theData
  else
    let this1 : OpaqueTQ3Object σ :=
      match this.theSet with
      | none => { this with theSet := X.E3Set_New }
      | some _ => this
    match this1.theSet with
    | none => (this1, kQ3Failure)
    | some s =>
      let r := X.Add s theType theData
      let this2 : OpaqueTQ3Object σ := { this1 with theSet := some r.1 }
      if r.2 ≠ kQ3Failure ∧ this2.sharedData.isSome then (this2.castEdited, r.2)
      else (this2, r.2)

/-- The method `OpaqueTQ3Object::EmptyElements`. -/
def EmptyElements (X : E3SetClass σ) (this : OpaqueTQ3Object σ) :
    OpaqueTQ3Object σ × TQ3Status :=
  if this.isE3Set then X.selfEmpty this
  else
    match this.theSet with
    | none => (this, kQ3Success)
    | some s =>
      let r := X.Q3Set_Empty s
      let this1 : OpaqueTQ3Object σ := { this with theSet := some r.1 }
      if r.2 ≠ kQ3Failure ∧ this1.sharedData.isSome then (this1.castEdited, r.2)
      else (this1, r.2)

/-- The method `OpaqueTQ3Object::ClearElement`. -/
def ClearElement (X : E3SetClass σ) (this : OpaqueTQ3Object σ) (theType : TQ3ElementType) :
    OpaqueTQ3Object σ × TQ3Status :=
  let theType := if theType = X.kQ3ElementTypeSet then X.kQ3ObjectTypeSetElement else theType
  if this.isE3Set then X.selfClear this theType
  else
    match this.theSet with
    | none => (this, kQ3Success)
    | some s =>
      let r := X.Q3Set_Clear s theType
      let this1 : OpaqueTQ3Object σ := { this with theSet := some r.1 }
      if r.2 ≠ kQ3Failure ∧ this1.sharedData.isSome then (this1.castEdited, r.2)
      else (this1, r.2)

/-- The method `OpaqueTQ3Object::SetSet`. -/
def SetSet (X : E3SetClass σ) (this : OpaqueTQ3Object σ) (set : Option σ) :
    OpaqueTQ3Object σ × TQ3Status :=
  ({ this with theSet := X.E3Shared_Replace this.theSet set }, kQ3Success)

end OpaqueTQ3Object

/-! ## QORenderer: reasons for leaving the TriMesh fast path -/

/-- The enumerator `kSlowPathMask_FastPath`. -/
def kSlowPathMask_FastPath : Nat := 0
/-- The enumerator `kSlowPathMask_NoVertexNormals`. -/
def kSlowPathMask_NoVertexNormals : Nat := 1 <<< 0
/-- The enumerator `kSlowPathMask_FaceColors`. -/
def kSlowPathMask_FaceColors : Nat := 1 <<< 1
/-- The enumerator `kSlowPathMask_Transparency`. -/
def kSlowPathMask_Transparency : Nat := 1 <<< 2
/-- The enumerator `kSlowPathMask_EmissiveColor`. -/
def kSlowPathMask_EmissiveColor : Nat := 1 <<< 3
/-- The enumerator `kSlowPathMask_FaceTextures`. -/
def kSlowPathMask_FaceTextures : Nat := 1 <<< 4

/-- The five slow-path reasons of `ESlowPathMask`. -/
def slowPathReasons : List Nat :=
  [kSlowPathMask_NoVertexNormals, kSlowPathMask_FaceColors, kSlowPathMask_Transparency,
   kSlowPathMask_EmissiveColor, kSlowPathMask_FaceTextures]

/-- The `SlowPathMask` of a collection of reasons: their bitwise OR, starting from
`kSlowPathMask_FastPath`. -/
def slowPathMaskOf (reasons : List Nat) : Nat :=
  reasons.foldr (fun r m => r ||| m) kSlowPathMask_FastPath

/-! ## Runs of operations on a shared object -/

/-- The calls that change the edit index or its lock. -/
inductive EditCall where
  | Edited
  | SetEditIndexLocked (inIsLocked : Bool)
  deriving DecidableEq, Repr

/-- One call applied to the shared data of an object. -/
def E3Shared.call (this : TQ3SharedData) : EditCall → TQ3SharedData
  | .Edited => (E3Shared.Edited this).1
  | .SetEditIndexLocked b => E3Shared.SetEditIndexLocked this b

/-- A sequence of calls applied in order. -/
def E3Shared.calls (this : TQ3SharedData) (cs : List EditCall) : TQ3SharedData :=
  cs.foldl E3Shared.call this

/-- The explicit model the spec asks for in place of the sign-bit encoding: an unbounded
index and a separate boolean lock. -/
structure EditIndexModel where
  index : Nat
  locked : Bool
  deriving DecidableEq, Repr

namespace EditIndexModel

/-- The model of a new object: index 1, unlocked. -/
def new : EditIndexModel := { index := 1, locked := false }

/-- The model of `Edited`: the index is incremented iff the model is not locked. -/
def Edited (m : EditIndexModel) : EditIndexModel :=
  if m.locked then m else { m with index := m.index + 1 }

/-- The model of `SetEditIndexLocked`: sets the lock, leaves the index unchanged. -/
def SetEditIndexLocked (m : EditIndexModel) (b : Bool) : EditIndexModel :=
  { m with locked := b }

/-- The model of `GetEditIndex`. -/
def GetEditIndex (m : EditIndexModel) : Nat := m.index

/-- The model of `IsEditIndexLocked`. -/
def IsEditIndexLocked (m : EditIndexModel) : Bool := m.locked

/-- One call applied to the model. -/
def call (m : EditIndexModel) : EditCall → EditIndexModel
  | .Edited => m.Edited
  | .SetEditIndexLocked b => m.SetEditIndexLocked b

/-- A sequence of calls applied to the model. -/
def calls (m : EditIndexModel) (cs : List EditCall) : EditIndexModel :=
  cs.foldl call m

end EditIndexModel

/-- The abstraction map from the stored signed edit index `e` to `(|e|, e < 0)`. -/
def E3Shared.toModel (this : TQ3SharedData) : EditIndexModel :=
  { index := this.editIndex.natAbs, locked := decide (this.editIndex < 0) }

/-- The calls considered on a whole object: the `E3Shared` methods and the element and
property methods of `OpaqueTQ3Object` that change the object. -/
inductive ObjectCall (σ : Type) where
  | Edited
  | SetEditIndexLocked (inIsLocked : Bool)
  | GetReference
  | SetProperty (inPropType : TQ3ObjectType) (inDataSize : Nat) (inData : List Nat)
      (mem : E3MemoryOutcome)
  | RemoveProperty (inPropType : TQ3ObjectType)
  | AddElement (theType : TQ3ElementType) (theData : List Nat)
  | ClearElement (theType : TQ3ElementType)
  | EmptyElements
  | SetSet (set : Option σ)

namespace OpaqueTQ3Object

variable {σ : Type}

/-- An `E3Shared` method applied to the `E3Shared` layer of an object. -/
def onShared (f : TQ3SharedData → TQ3SharedData) (this : OpaqueTQ3Object σ) :
    OpaqueTQ3Object σ :=
  { this with sharedData := this.sharedData.map f }

/-- One call applied to an object. -/
def call (X : E3SetClass σ) (this : OpaqueTQ3Object σ) : ObjectCall σ → OpaqueTQ3Object σ
  | .Edited => this.onShared (fun sd => (E3Shared.Edited sd).1)
  | .SetEditIndexLocked b => this.onShared (fun sd => E3Shared.SetEditIndexLocked sd b)
  | .GetReference => this.onShared E3Shared.GetReference
  | .SetProperty t n d mem => (this.SetProperty t n d mem).1
  | .RemoveProperty t => (this.RemoveProperty t).1
  | .AddElement t d => (this.AddElement X t d).1
  | .ClearElement t => (this.ClearElement X t).1
  | .EmptyElements => (this.EmptyElements X).1
  | .SetSet set => (this.SetSet X set).1

/-- A sequence of calls applied in order. -/
def calls (X : E3SetClass σ) (this : OpaqueTQ3Object σ) (cs : List (ObjectCall σ)) :
    OpaqueTQ3Object σ :=
  cs.foldl (call X) this

/-- The value `GetEditIndex` returns for the object; defined for instances of `E3Shared`. -/
def editIndex? (this : OpaqueTQ3Object σ) : Option Nat :=
  this.sharedData.map E3Shared.GetEditIndex

end OpaqueTQ3Object

/-- The values a `TQ3Int32` can hold. -/
def isInt32 (z : Int) : Prop := -2147483648 ≤ z ∧ z < 2147483648

instance (z : Int) : Decidable (isInt32 z) := by unfold isInt32; infer_instance

/-- The values a `TQ3Uns32` can hold. -/
def isUns32 (n : Nat) : Prop := n < 4294967296

instance (n : Nat) : Decidable (isUns32 n) := by unfold isUns32; infer_instance

/-- The effect one object call can have on the shared data: none, one `Edited`, two
`Edited` in a row (a `SetProperty` that replaces a value), a change of the lock, or a new
reference. -/
def SharedStep (sd sd1 : TQ3SharedData) : Prop :=
  sd1 = sd ∨ sd1 = (E3Shared.Edited sd).1 ∨
  sd1 = (E3Shared.Edited (E3Shared.Edited sd).1).1 ∨
  sd1 = E3Shared.SetEditIndexLocked sd true ∨ sd1 = E3Shared.SetEditIndexLocked sd false ∨
  sd1 = E3Shared.GetReference sd

/-- The assumption under which an object that is itself a set is covered: the methods of
the set class, which are outside these sources, leave the shared data of the object as it is
or change it as one of the calls considered here does. -/
def E3SetClass.selfCallsEdit {σ : Type} (X : E3SetClass σ) : Prop :=
  ∀ (o : OpaqueTQ3Object σ) (sd : TQ3SharedData), o.sharedData = some sd →
    (∀ t d, ∃ sd1, (X.selfAdd o t d).1.sharedData = some sd1 ∧ SharedStep sd sd1) ∧
    (∀ t, ∃ sd1, (X.selfClear o t).1.sharedData = some sd1 ∧ SharedStep sd sd1) ∧
    (∃ sd1, (X.selfEmpty o).1.sharedData = some sd1 ∧ SharedStep sd sd1)

/-- A concrete set class to instantiate the parameters with: a set is the list of its
element types, `Add` and `Q3Set_Clear` succeed, `Q3Set_Empty` succeeds, a new set can be
allocated, and the constants are the four-character codes `set ` and `sete`. -/
def listSetClass : E3SetClass (List TQ3ElementType) where
  kQ3ElementTypeSet := 0x73657420
  kQ3ObjectTypeSetElement := 0x73657465
  E3Set_New := some []
  Add := fun s t _ => (t :: s, kQ3Success)
  Q3Set_Clear := fun s t => (s.filter (fun u => u != t), kQ3Success)
  Q3Set_Empty := fun _ => ([], kQ3Success)
  E3Shared_Replace := fun _ new => new
  selfAdd := fun o _ _ => (o, kQ3Failure)
  selfClear := fun o _ => (o, kQ3Failure)
  selfEmpty := fun o => (o, kQ3Failure)

/-- A shared object as `e3root_new` and `e3shared_new` leave it: no set, no properties,
reference count 1 and edit index 1; it is not itself a set. -/
def newSharedObject : OpaqueTQ3Object (List TQ3ElementType) where
  isObjectValid := true
  isE3Set := false
  theSet := none
  propertyTable := none
  sharedData := some (e3shared_new ⟨0, 0⟩).1

/-- The item the property table of an object holds for a property type: null when there is
no table or nothing is found; this is the lookup `GetProperty`, `GetPropertyAddress` and
`RemoveProperty` start with. -/
def OpaqueTQ3Object.findProperty {σ : Type} (this : OpaqueTQ3Object σ)
    (inPropType : TQ3ObjectType) : Option PropertyItem :=
  match this.propertyTable with
  | none => none
  | some table => E3HashTable_Find table inPropType

/-! ## Bitmaps -/

/-- Modelled from the spec: the declaration of `TQ3Endian` (Quesa.h) is outside these
sources; the code distinguishes `kQ3EndianBig` from the other bit order. -/
inductive TQ3Endian where
  | kQ3EndianBig
  | kQ3EndianLittle
  deriving DecidableEq, Repr

/-- Modelled from the spec: the declaration of `TQ3Bitmap` (Quesa.h) is outside these sources;
the fields are those the code reads (`image`, `rowBytes`, `bitOrder`) together with the
`width` and `height` of the bitmap. `image` is the memory behind the image pointer, a
sequence of `TQ3Uns8` bytes. -/
structure TQ3Bitmap where
  image : List Nat
  width : Nat
  height : Nat
  rowBytes : Nat
  bitOrder : TQ3Endian
  deriving DecidableEq, Repr

/-- The function `E3Bitmap_GetImageSize`, computed in `TQ3Uns32`. -/
def E3Bitmap_GetImageSize (theWidth theHeight : Nat) : Nat :=
  let imageSize := (((theWidth + 4294967295) % 4294967296) / 8 + 1) % 4294967296
  (imageSize * theHeight) % 4294967296

/-- The offset of the byte that holds pixel `(x, y)`: `(y * rowBytes)`, a `TQ3Uns32` product,
then `x / 8`, both added to the image pointer. -/
def E3Bitmap_byteOffset (theBitmap : TQ3Bitmap) (x y : Nat) : Nat :=
  (y * theBitmap.rowBytes) % 4294967296 + x / 8

/-- The function `E3Bitmap_GetBit`. -/
def E3Bitmap_GetBit (theBitmap : TQ3Bitmap) (x y : Nat) : Bool :=
  let theByte := theBitmap.image.getD (E3Bitmap_byteOffset theBitmap x y) 0
  let bitShift := (x % 8) % 256
  match theBitmap.bitOrder with
  | .kQ3EndianBig => ((theByte >>> (7 - bitShift)) &&& 0x01) != 0
  | .kQ3EndianLittle => ((theByte >>> bitShift) &&& 0x01) != 0

/-- The function `E3Bitmap_SetBit`; the byte mask and the updated byte are `TQ3Uns8`, the
complement of the mask is taken in 32 bits. -/
def E3Bitmap_SetBit (theBitmap : TQ3Bitmap) (x y : Nat) (theState : Bool) :
    TQ3Bitmap × TQ3Status :=
  let bitShift := (x % 8) % 256
  let byteMask :=
    match theBitmap.bitOrder with
    | .kQ3EndianBig => (1 <<< (7 - bitShift)) % 256
    | .kQ3EndianLittle => (1 <<< bitShift) % 256
  let theByte := theBitmap.image.getD (E3Bitmap_byteOffset theBitmap x y) 0
  let theByte :=
    if theState then (theByte ||| byteMask) % 256
    else (theByte &&& (4294967295 ^^^ byteMask)) % 256
  ({ theBitmap with image := theBitmap.image.set (E3Bitmap_byteOffset theBitmap x y) theByte },
   kQ3Success)

/-! ## QORenderer: the transparent buffer -/

/-- Modelled from the spec: the class `TransBuffer` (member `mTransBuffer` of the renderer) is
defined outside these sources. The spec has it store each transparent primitive with its
precomputed camera-space depth. A primitive is its vertex data and its depth; depths are
floats in the renderer and are taken here as rationals, which order finite floats the same
way. -/
structure TransPrim where
  vertices : List Nat
  depth : ℚ
  deriving DecidableEq, Repr

/-- Modelled from the spec: the order in which the flush draws, "depth descending (farthest
first)": `a` may be drawn before `b` when the depth of `a` is at least the depth of `b`. -/
def TransPrim.farther (a b : TransPrim) : Prop := a.depth ≥ b.depth

instance : DecidableRel TransPrim.farther := fun a b => by
  unfold TransPrim.farther; infer_instance

instance : IsTotal TransPrim TransPrim.farther :=
  ⟨fun a b => le_total b.depth a.depth⟩

instance : IsTrans TransPrim TransPrim.farther :=
  ⟨fun _ _ _ hab hbc => le_trans hbc hab⟩

/-- Modelled from the spec: the transparent buffer, the primitives accumulated during a pass
in submission order. -/
structure TransBuffer where
  prims : List TransPrim
  deriving DecidableEq, Repr

namespace TransBuffer

/-- Modelled from the spec: the buffer at the start of a pass holds nothing. -/
def empty : TransBuffer := { prims := [] }

/-- Modelled from the spec: `AddPrimitive (vertices, depth)` "appends with a precomputed
camera-space depth". -/
def AddPrimitive (buf : TransBuffer) (vertices : List Nat) (depth : ℚ) : TransBuffer :=
  { prims := buf.prims ++ [{ vertices := vertices, depth := depth }] }

/-- Modelled from the spec: `Flush` "sorts all accumulated primitives by depth descending
(farthest first) using a stable sort" and "issues one draw call per primitive"; the buffer is
cleared. The sort is an insertion sort; the result is the list of draw calls in the order
they are issued, and the buffer after the flush. -/
def Flush (buf : TransBuffer) : List TransPrim × TransBuffer :=
  (buf.prims.insertionSort TransPrim.farther, { prims := [] })

/-- The buffer after the primitives of a list were added in the order of the list. -/
def addAll (buf : TransBuffer) (submitted : List TransPrim) : TransBuffer :=
  submitted.foldl (fun b p => b.AddPrimitive p.vertices p.depth) buf

end TransBuffer

/-! ## QORenderer: the VBO cache -/

/-- Modelled from the spec: the VBO cache behind `RenderFastPathTriMesh` is defined outside
these sources. The spec keys an entry by the identity of the geometry object and its edit
index; the entry holds the vertex data that was uploaded to the GPU buffer. -/
structure VBOEntry where
  geometryId : Nat
  editIndex : Nat
  vertexData : List Nat
  deriving DecidableEq, Repr

/-- Modelled from the spec: the cache, "bounded by a configurable memory budget"; the entries
are kept from the least recently used to the most recently used. -/
structure VBOCache where
  entries : List VBOEntry
  budget : Nat
  deriving DecidableEq, Repr

/-- The result of `GetOrCreate`: the cache afterwards, the entry whose buffer is returned,
and whether vertex data was uploaded to the GPU. -/
structure VBOResult where
  cache : VBOCache
  entry : VBOEntry
  uploaded : Bool
  deriving DecidableEq, Repr

namespace VBOCache

/-- The GPU memory the entries of a list occupy. -/
def usedBytes (entries : List VBOEntry) : Nat :=
  (entries.map (fun e => e.vertexData.length)).sum

/-- Modelled from the spec: "on budget overflow, evict least-recently-used entries until
under budget, before inserting the new entry"; `needed` is the size of the new entry. -/
def evictFor (budget needed : Nat) : List VBOEntry → List VBOEntry
  | [] => []
  | e :: rest =>
    if usedBytes (e :: rest) + needed ≤ budget then e :: rest
    else evictFor budget needed rest

/-- Modelled from the spec: `GetOrCreate (geometryId, editIndex, vertexData)`: "if an entry
exists for `geometryId` with a stored edit index equal to the current `editIndex`, return it
unchanged (cache hit, no GPU upload); otherwise upload `vertexData`, replace the entry, store
the new `editIndex` (cache miss)". A hit makes the entry the most recently used one; a miss
drops the stale entry of the geometry, evicts for the new entry and inserts it. -/
def GetOrCreate (cache : VBOCache) (geometryId editIndex : Nat) (vertexData : List Nat) :
    VBOResult :=
  match cache.entries.find? (fun e => e.geometryId == geometryId && e.editIndex == editIndex) with
  | some e =>
    { cache := { cache with entries := cache.entries.erase e ++ [e] },
      entry := e,
      uploaded := false }
  | none =>
    let others := cache.entries.filter (fun e => e.geometryId != geometryId)
    let kept := evictFor cache.budget vertexData.length others
    let e : VBOEntry :=
      { geometryId := geometryId, editIndex := editIndex, vertexData := vertexData }
    { cache := { cache with entries := kept ++ [e] },
      entry := e,
      uploaded := true }

/-- Modelled from the spec: the cache holds at most one entry per geometry, since a miss
replaces the entry of the geometry. -/
def oneEntryPerGeometry (cache : VBOCache) : Prop :=
  (cache.entries.map (fun e => e.geometryId)).Nodup

instance (cache : VBOCache) : Decidable cache.oneEntryPerGeometry := by
  unfold oneEntryPerGeometry; infer_instance

/-- The call the renderer makes for a geometry object: the key is the identity of the object
and the value `GetEditIndex` returns for it. -/
def GetOrCreateFor (cache : VBOCache) (geometryId : Nat) (geometry : TQ3SharedData)
    (vertexData : List Nat) : VBOResult :=
  cache.GetOrCreate geometryId (E3Shared.GetEditIndex geometry) vertexData

end VBOCache

/-! ## QORenderer: attribute resolution for a TriMesh vertex -/

/-- Modelled from the spec: the declaration of `TQ3ColorRGB` (Quesa.h) is outside these
sources: three float components, taken here as rationals (a color is only copied). -/
structure TQ3ColorRGB where
  r : ℚ
  g : ℚ
  b : ℚ
  deriving DecidableEq, Repr

/-- Modelled from the spec: the declaration of `TQ3Point3D` (Quesa.h) is outside these
sources: a position, three floats. -/
structure TQ3Point3D where
  x : ℚ
  y : ℚ
  z : ℚ
  deriving DecidableEq, Repr

/-- Modelled from the spec: the declaration of `TQ3Vector3D` (Quesa.h) is outside these
sources: a normal, three floats. -/
structure TQ3Vector3D where
  x : ℚ
  y : ℚ
  z : ℚ
  deriving DecidableEq, Repr

/-- Modelled from the spec: the declaration of `TQ3Param2D` (Quesa.h) is outside these
sources: a texture coordinate, two floats. -/
structure TQ3Param2D where
  u : ℚ
  v : ℚ
  deriving DecidableEq, Repr

/-- Modelled from the spec: the declaration of `TQ3Switch` (Quesa.h) is outside these sources:
"highlight on/off". -/
inductive TQ3Switch where
  | kQ3Off
  | kQ3On
  deriving DecidableEq, Repr

/-- The structure `ColorState` of QORenderer.h; a pointer is null or points to a color. -/
structure ColorState where
  diffuseColor : Option TQ3ColorRGB
  specularColor : Option TQ3ColorRGB
  emissiveColor : Option TQ3ColorRGB
  specularControl : ℚ
  metallic : ℚ
  alpha : ℚ
  highlightState : TQ3Switch
  deriving DecidableEq, Repr

/-- The structure `MeshArrays` of QORenderer.h; a pointer is null or points to an array, and
a shader object is given by its identity. -/
structure MeshArrays where
  vertPosition : Option (List TQ3Point3D)
  vertNormal : Option (List TQ3Vector3D)
  vertUV : Option (List TQ3Param2D)
  vertColor : Option (List TQ3ColorRGB)
  vertTransparency : Option (List TQ3ColorRGB)
  vertEmissive : Option (List TQ3ColorRGB)
  faceNormal : Option (List TQ3Vector3D)
  faceColor : Option (List TQ3ColorRGB)
  faceTransparency : Option (List TQ3ColorRGB)
  faceEmissive : Option (List TQ3ColorRGB)
  faceSurfaceShader : Option (List (Option Nat))
  edgeColor : Option (List TQ3ColorRGB)
  deriving DecidableEq, Repr

/-- Modelled from the spec: the vertex handed to the buffers, as far as the spec defines its
resolution: position, optional normal, optional texture coordinate, the resolved diffuse
color and the optional emissive color. -/
structure Vertex where
  point : Option TQ3Point3D
  normal : Option TQ3Vector3D
  texCoord : Option TQ3Param2D
  diffuseColor : TQ3ColorRGB
  emissiveColor : Option TQ3ColorRGB
  deriving DecidableEq, Repr

/-- Modelled from the spec: the "hardcoded engine default (white, opaque)" of the diffuse
channel. -/
def engineDefaultDiffuse : TQ3ColorRGB := { r := 1, g := 1, b := 1 }

/-- Modelled from the spec: element `index` of an attribute array that may be absent. -/
def attributeAt {α : Type} (array : Option (List α)) (index : Nat) : Option α :=
  match array with
  | none => none
  | some values => values[index]?

/-- Modelled from the spec: "attribute resolution order for any single channel: vertex-level
attribute set, face-level attribute set, geometry-level attribute set, inherited view-level
default", "the first channel found wins"; the result is null when no level has a value. -/
def resolveChannel {α : Type} (vertexLevel faceLevel geometryLevel viewLevel : Option α) :
    Option α :=
  match vertexLevel with
  | some v => some v
  | none =>
    match faceLevel with
    | some v => some v
    | none =>
      match geometryLevel with
      | some v => some v
      | none => viewLevel

/-- Modelled from the spec: `Renderer::CalcTriMeshVertState` is only declared in these
sources. For vertex `inVertNum` of face `inFaceNum` it resolves each channel on its own, in
the order vertex, face, geometry state (`mGeomState`), view state (`mViewState`), and the
diffuse channel falls back to the engine default. -/
def CalcTriMeshVertState (inVertNum inFaceNum : Nat) (inData : MeshArrays)
    (mGeomState mViewState : ColorState) : Vertex :=
  { point := attributeAt inData.vertPosition inVertNum,
    normal := resolveChannel (attributeAt inData.vertNormal inVertNum)
      (attributeAt inData.faceNormal inFaceNum) none none,
    texCoord := attributeAt inData.vertUV inVertNum,
    diffuseColor :=
      (resolveChannel (attributeAt inData.vertColor inVertNum)
        (attributeAt inData.faceColor inFaceNum)
        mGeomState.diffuseColor mViewState.diffuseColor).getD engineDefaultDiffuse,
    emissiveColor :=
      resolveChannel (attributeAt inData.vertEmissive inVertNum)
        (attributeAt inData.faceEmissive inFaceNum)
        mGeomState.emissiveColor mViewState.emissiveColor }

/-! ## Properties -/

open E3Shared

theorem E3Integer_Abs_of_nonneg (z : Int) (h0 : 0 ≤ z) (h1 : z < 2147483648) :
    E3Integer_Abs z = z := by
  unfold E3Integer_Abs toInt32
  split <;> omega

theorem E3Integer_Abs_of_neg (z : Int) (h0 : z < 0) (h1 : -2147483648 < z) :
    E3Integer_Abs z = -z := by
  unfold E3Integer_Abs toInt32
  split <;> omega

/-- C1 (as the code has it): `Edited` always returns `kQ3Success`; without overflow of the
32-bit counter it raises `GetEditIndex` by exactly one when the edit index is not locked and
leaves it unchanged when the edit index is locked. -/
theorem Edited_GetEditIndex (this : TQ3SharedData) (hov : this.editIndex < 2147483647) :
    (Edited this).2 = kQ3Success ∧
    GetEditIndex (Edited this).1 =
      if IsEditIndexLocked this then GetEditIndex this else GetEditIndex this + 1 := by
  unfold Edited IsEditIndexLocked GetEditIndex
  by_cases h : this.editIndex ≥ 0
  · have hl : ¬ this.editIndex < 0 := by omega
    simp only [h, hl, if_true, decide_False, Bool.false_eq_true, if_false, true_and]
    rw [E3Integer_Abs_of_nonneg _ h (by omega)]
    have h2 : toInt32 (this.editIndex + 1) = this.editIndex + 1 := by unfold toInt32; omega
    rw [h2, E3Integer_Abs_of_nonneg _ (by omega) (by omega)]
    unfold toUns32
    omega
  · have hl : this.editIndex < 0 := by omega
    simp [h, hl]

/-- C1 on an unlocked object with stored index 7 and on a locked one with stored index -7. -/
theorem Edited_GetEditIndex_witness :
    ((7 : Int) < 2147483647 ∧ GetEditIndex (Edited ⟨1, 7⟩).1 = 8) ∧
    ((-7 : Int) < 2147483647 ∧ GetEditIndex (Edited ⟨1, -7⟩).1 = 7) :=
  ⟨⟨by decide, (Edited_GetEditIndex ⟨1, 7⟩ (by decide)).2⟩,
   ⟨by decide, (Edited_GetEditIndex ⟨1, -7⟩ (by decide)).2⟩⟩

/-- C1 fails as stated: on a new object whose edit index has been locked, `Edited` does not
raise `GetEditIndex` by one (it stays at 1). -/
theorem Edited_locked_counterexample :
    GetEditIndex (Edited (SetEditIndexLocked (e3shared_new ⟨0, 0⟩).1 true)).1 ≠
      GetEditIndex (SetEditIndexLocked (e3shared_new ⟨0, 0⟩).1 true) + 1 := by
  decide

theorem EditIndexModel.index_le_call (m : EditIndexModel) (c : EditCall) :
    m.index ≤ (m.call c).index := by
  cases c with
  | Edited =>
    simp only [EditIndexModel.call, EditIndexModel.Edited]
    split <;> simp
  | SetEditIndexLocked b => simp [EditIndexModel.call, EditIndexModel.SetEditIndexLocked]

theorem EditIndexModel.index_le_calls (cs : List EditCall) (m : EditIndexModel) :
    m.index ≤ (m.calls cs).index := by
  induction cs generalizing m with
  | nil => simp [EditIndexModel.calls]
  | cons c cs ih =>
    have h1 := EditIndexModel.index_le_call m c
    have h2 := ih (m.call c)
    simp only [EditIndexModel.calls, List.foldl_cons] at h2 ⊢
    omega

theorem E3Shared.toModel_call (this : TQ3SharedData) (c : EditCall)
    (h1 : 1 ≤ this.editIndex.natAbs)
    (hov : ((toModel this).call c).index < 2147483648) :
    toModel (call this c) = (toModel this).call c ∧ 1 ≤ (call this c).editIndex.natAbs := by
  have hle := EditIndexModel.index_le_call (toModel this) c
  have hb : this.editIndex.natAbs < 2147483648 := by
    have : (toModel this).index = this.editIndex.natAbs := rfl
    omega
  cases c with
  | Edited =>
    by_cases hn : this.editIndex < 0
    · have hge : ¬ this.editIndex ≥ 0 := by omega
      simp [E3Shared.call, E3Shared.Edited, EditIndexModel.call, EditIndexModel.Edited,
        toModel, hn, hge, h1]
    · have hge : this.editIndex ≥ 0 := by omega
      have hov2 : this.editIndex.natAbs + 1 < 2147483648 := by
        simpa [EditIndexModel.call, EditIndexModel.Edited, toModel, hn] using hov
      have h2 : toInt32 (this.editIndex + 1) = this.editIndex + 1 := by
        unfold toInt32; omega
      have h3 : ¬ this.editIndex + 1 < 0 := by omega
      simp only [E3Shared.call, E3Shared.Edited, EditIndexModel.call, EditIndexModel.Edited,
        toModel, hn, hge, h2, h3, if_true, decide_False, Bool.false_eq_true, if_false]
      refine ⟨?_, by omega⟩
      congr 1
      omega
  | SetEditIndexLocked b =>
    by_cases hn : this.editIndex < 0
    · have ha : E3Integer_Abs this.editIndex = -this.editIndex :=
        E3Integer_Abs_of_neg _ hn (by omega)
      cases b with
      | true =>
        have h2 : toInt32 this.editIndex = this.editIndex := by unfold toInt32; omega
        simp [E3Shared.call, E3Shared.SetEditIndexLocked, EditIndexModel.call,
          EditIndexModel.SetEditIndexLocked, toModel, ha, h2, hn, h1]
      | false =>
        have h3 : ¬ -this.editIndex < 0 := by omega
        simp only [E3Shared.call, E3Shared.SetEditIndexLocked, EditIndexModel.call,
          EditIndexModel.SetEditIndexLocked, toModel, ha, Bool.false_eq_true, if_false,
          h3, decide_False, Int.natAbs_neg]
        exact ⟨trivial, h1⟩
    · have ha : E3Integer_Abs this.editIndex = this.editIndex :=
        E3Integer_Abs_of_nonneg _ (by omega) (by omega)
      cases b with
      | true =>
        have h2 : toInt32 (-this.editIndex) = -this.editIndex := by unfold toInt32; omega
        have h3 : -this.editIndex < 0 := by omega
        simp only [E3Shared.call, E3Shared.SetEditIndexLocked, EditIndexModel.call,
          EditIndexModel.SetEditIndexLocked, toModel, ha, h2, if_true, h3, decide_True,
          Int.natAbs_neg]
        exact ⟨trivial, h1⟩
      | false =>
        simp only [E3Shared.call, E3Shared.SetEditIndexLocked, EditIndexModel.call,
          EditIndexModel.SetEditIndexLocked, toModel, ha, Bool.false_eq_true, if_false, hn,
          decide_False]
        exact ⟨trivial, h1⟩

theorem E3Shared.toModel_calls (cs : List EditCall) (this : TQ3SharedData)
    (h1 : 1 ≤ this.editIndex.natAbs)
    (hov : ((toModel this).calls cs).index < 2147483648) :
    toModel (calls this cs) = (toModel this).calls cs ∧
      1 ≤ (calls this cs).editIndex.natAbs := by
  induction cs generalizing this with
  | nil => exact ⟨rfl, h1⟩
  | cons c cs ih =>
    have hle := EditIndexModel.index_le_calls cs ((toModel this).call c)
    have hov1 : ((toModel this).call c).index < 2147483648 := by
      simp only [EditIndexModel.calls, List.foldl_cons] at hov hle
      omega
    obtain ⟨hs, hp⟩ := E3Shared.toModel_call this c h1 hov1
    have hov2 : ((toModel (call this c)).calls cs).index < 2147483648 := by
      rw [hs]; simpa [EditIndexModel.calls] using hov
    obtain ⟨hs2, hp2⟩ := ih (call this c) hp hov2
    refine ⟨?_, ?_⟩
    · show toModel (calls (call this c) cs) = ((toModel this).call c).calls cs
      rw [hs2, hs]
    · exact hp2

theorem E3Shared.observe_toModel (this : TQ3SharedData)
    (hb : this.editIndex.natAbs < 2147483648) :
    GetEditIndex this = (toModel this).GetEditIndex ∧
      IsEditIndexLocked this = (toModel this).IsEditIndexLocked := by
  refine ⟨?_, rfl⟩
  unfold GetEditIndex EditIndexModel.GetEditIndex toModel E3Integer_Abs toInt32 toUns32
  simp only
  split <;> omega

/-- C2: on every state reached from `e3shared_new` by `Edited` and `SetEditIndexLocked`
calls, as long as the index stays within the signed 32-bit range (no overflow), the map
`e ↦ (|e|, e < 0)` sends the state to the state of the explicit model after the same calls,
commutes with one more call, and the two observers `GetEditIndex` and `IsEditIndexLocked`
agree with the model before and after that call. -/
theorem editIndex_refines_model (theObject : TQ3SharedData) (cs : List EditCall) (c : EditCall)
    (hov : (EditIndexModel.new.calls (cs ++ [c])).index < 2147483648) :
    toModel (calls (e3shared_new theObject).1 cs) = EditIndexModel.new.calls cs ∧
    toModel (call (calls (e3shared_new theObject).1 cs) c) =
      (toModel (calls (e3shared_new theObject).1 cs)).call c ∧
    GetEditIndex (calls (e3shared_new theObject).1 cs) =
      (toModel (calls (e3shared_new theObject).1 cs)).GetEditIndex ∧
    IsEditIndexLocked (calls (e3shared_new theObject).1 cs) =
      (toModel (calls (e3shared_new theObject).1 cs)).IsEditIndexLocked ∧
    GetEditIndex (call (calls (e3shared_new theObject).1 cs) c) =
      ((toModel (calls (e3shared_new theObject).1 cs)).call c).GetEditIndex ∧
    IsEditIndexLocked (call (calls (e3shared_new theObject).1 cs) c) =
      ((toModel (calls (e3shared_new theObject).1 cs)).call c).IsEditIndexLocked := by
  have hnew : toModel (e3shared_new theObject).1 = EditIndexModel.new := rfl
  have h1 : 1 ≤ (e3shared_new theObject).1.editIndex.natAbs := by
    show 1 ≤ (1 : Int).natAbs
    decide
  have hsplit : EditIndexModel.new.calls (cs ++ [c]) = (EditIndexModel.new.calls cs).call c := by
    simp [EditIndexModel.calls]
  have hle := EditIndexModel.index_le_call (EditIndexModel.new.calls cs) c
  have hovcs : (EditIndexModel.new.calls cs).index < 2147483648 := by
    rw [hsplit] at hov; omega
  have hov0 : ((toModel (e3shared_new theObject).1).calls cs).index < 2147483648 := by
    rw [hnew]; exact hovcs
  obtain ⟨hs, hp⟩ := E3Shared.toModel_calls cs _ h1 hov0
  rw [hnew] at hs
  have hov1 : ((toModel (calls (e3shared_new theObject).1 cs)).call c).index < 2147483648 := by
    rw [hs, ← hsplit]; exact hov
  obtain ⟨hs1, hp1⟩ := E3Shared.toModel_call _ c hp hov1
  have hb0 : (calls (e3shared_new theObject).1 cs).editIndex.natAbs < 2147483648 := by
    have : (toModel (calls (e3shared_new theObject).1 cs)).index
        = (calls (e3shared_new theObject).1 cs).editIndex.natAbs := rfl
    rw [hs] at this
    omega
  have hb1 : (call (calls (e3shared_new theObject).1 cs) c).editIndex.natAbs < 2147483648 := by
    have : (toModel (call (calls (e3shared_new theObject).1 cs) c)).index
        = (call (calls (e3shared_new theObject).1 cs) c).editIndex.natAbs := rfl
    rw [hs1] at this
    omega
  obtain ⟨ho1, ho2⟩ := E3Shared.observe_toModel _ hb0
  obtain ⟨ho3, ho4⟩ := E3Shared.observe_toModel _ hb1
  rw [hs1] at ho3 ho4
  exact ⟨hs, hs1, ho1, ho2, ho3, ho4⟩

/-- C2, the refinement on a concrete run: edit, lock, edit, unlock, then edit. -/
theorem editIndex_refines_model_witness :
    (EditIndexModel.new.calls
        ([EditCall.Edited, EditCall.SetEditIndexLocked true, EditCall.Edited,
          EditCall.SetEditIndexLocked false] ++ [EditCall.Edited])).index < 2147483648 ∧
    toModel (calls (e3shared_new ⟨0, 0⟩).1
        [EditCall.Edited, EditCall.SetEditIndexLocked true, EditCall.Edited,
          EditCall.SetEditIndexLocked false]) = ⟨2, false⟩ ∧
    GetEditIndex (call (calls (e3shared_new ⟨0, 0⟩).1
        [EditCall.Edited, EditCall.SetEditIndexLocked true, EditCall.Edited,
          EditCall.SetEditIndexLocked false]) EditCall.Edited) = 3 :=
  ⟨by decide,
   (editIndex_refines_model ⟨0, 0⟩ _ EditCall.Edited (by decide)).1,
   (editIndex_refines_model ⟨0, 0⟩
      [EditCall.Edited, EditCall.SetEditIndexLocked true, EditCall.Edited,
        EditCall.SetEditIndexLocked false] EditCall.Edited (by decide)).2.2.2.2.1⟩

/-- C3: `SetSet` replaces the set of the object and returns `kQ3Success` without calling
`Edited`: the shared data, hence the value of `GetEditIndex`, is what it was before the call,
for every object, set class and argument, in particular for an unlocked shared object that
is not a set. -/
theorem SetSet_keeps_editIndex {σ : Type} (X : E3SetClass σ) (this : OpaqueTQ3Object σ)
    (set : Option σ) :
    (this.SetSet X set).2 = kQ3Success ∧
    (this.SetSet X set).1.theSet = X.E3Shared_Replace this.theSet set ∧
    (this.SetSet X set).1.sharedData = this.sharedData ∧
    (this.SetSet X set).1.editIndex? = this.editIndex? ∧
    (newSharedObject.SetSet listSetClass (some [1])).1.theSet = some [1] ∧
    newSharedObject.editIndex? = some 1 ∧
    (newSharedObject.SetSet listSetClass (some [1])).1.editIndex? = some 1 :=
  ⟨rfl, rfl, rfl, rfl, rfl, by decide, by decide⟩

theorem E3Shared.Edited_editIndex (sd : TQ3SharedData) :
    (Edited sd).1.editIndex =
      if sd.editIndex ≥ 0 then toInt32 (sd.editIndex + 1) else sd.editIndex := by
  unfold Edited
  split <;> rfl

theorem E3Shared.GetEditIndex_eq_natAbs (sd : TQ3SharedData) (hr : isInt32 sd.editIndex) :
    GetEditIndex sd = sd.editIndex.natAbs := by
  unfold isInt32 at hr
  unfold GetEditIndex E3Integer_Abs toInt32 toUns32
  split <;> omega

theorem E3Shared.Edited_mono (sd : TQ3SharedData) (hr : isInt32 sd.editIndex) :
    isInt32 (Edited sd).1.editIndex ∧
      sd.editIndex.natAbs ≤ (Edited sd).1.editIndex.natAbs := by
  unfold isInt32 at *
  rw [E3Shared.Edited_editIndex]
  unfold toInt32
  split <;> omega

theorem SharedStep.mono {sd sd1 : TQ3SharedData} (h : SharedStep sd sd1)
    (hr : isInt32 sd.editIndex) :
    isInt32 sd1.editIndex ∧ GetEditIndex sd ≤ GetEditIndex sd1 := by
  have key : isInt32 sd1.editIndex ∧ sd.editIndex.natAbs ≤ sd1.editIndex.natAbs := by
    rcases h with h | h | h | h | h | h <;> subst h
    · exact ⟨hr, le_refl _⟩
    · exact E3Shared.Edited_mono sd hr
    · obtain ⟨h1, h2⟩ := E3Shared.Edited_mono sd hr
      obtain ⟨h3, h4⟩ := E3Shared.Edited_mono _ h1
      exact ⟨h3, le_trans h2 h4⟩
    · unfold isInt32 at *
      simp only [SetEditIndexLocked, if_true]
      unfold E3Integer_Abs toInt32
      split <;> omega
    · unfold isInt32 at *
      simp only [SetEditIndexLocked, Bool.false_eq_true, if_false]
      unfold E3Integer_Abs toInt32
      split <;> omega
    · exact ⟨hr, le_refl _⟩
  rw [E3Shared.GetEditIndex_eq_natAbs sd hr, E3Shared.GetEditIndex_eq_natAbs sd1 key.1]
  exact key

namespace OpaqueTQ3Object

variable {σ : Type}

theorem RemoveProperty_shared (this : OpaqueTQ3Object σ) (t : TQ3ObjectType)
    (sd : TQ3SharedData) (h : this.sharedData = some sd) :
    (this.RemoveProperty t).1.isE3Set = this.isE3Set ∧
    ((this.RemoveProperty t).1.sharedData = some sd ∨
      (this.RemoveProperty t).1.sharedData = some (Edited sd).1) := by
  unfold RemoveProperty
  split
  · simp [h]
  · split
    · simp [h]
    · dsimp only
      split <;> simp [E3Shared_Edited, castEdited, h]

theorem SetProperty_shared (this : OpaqueTQ3Object σ) (t : TQ3ObjectType) (n : Nat)
    (d : List Nat) (mem : E3MemoryOutcome)
    (sd : TQ3SharedData) (h : this.sharedData = some sd) :
    (this.SetProperty t n d mem).1.isE3Set = this.isE3Set ∧
    ((this.SetProperty t n d mem).1.sharedData = some sd ∨
      (this.SetProperty t n d mem).1.sharedData = some (Edited sd).1 ∨
      (this.SetProperty t n d mem).1.sharedData = some (Edited (Edited sd).1).1) := by
  rcases hpt : this.propertyTable with _ | tbl
  · cases hc : mem.tableCreated
    · simp [SetProperty, hpt, hc, E3HashTable_Create, h]
    · cases ha : mem.blockAllocated <;> cases hi : mem.itemAdded <;>
        cases hv : this.isObjectValid <;>
        simp [SetProperty, hpt, hc, ha, hi, hv, E3HashTable_Create, RemoveProperty,
          E3HashTable_Find, E3HashTable_Add, E3Shared_IsOfMyClass, E3Shared_Edited,
          castEdited, h]
  · cases hf : E3HashTable_Find tbl t <;>
      cases ha : mem.blockAllocated <;> cases hi : mem.itemAdded <;>
      cases hv : this.isObjectValid <;>
      simp [SetProperty, hpt, ha, hi, hv, hf, RemoveProperty,
        E3HashTable_Add, E3Shared_IsOfMyClass, E3Shared_Edited,
        castEdited, h]

theorem AddElement_shared (X : E3SetClass σ) (this : OpaqueTQ3Object σ) (t : TQ3ElementType)
    (d : List Nat) (sd : TQ3SharedData) (h : this.sharedData = some sd)
    (hset : this.isE3Set = false) :
    (this.AddElement X t d).1.isE3Set = false ∧
    ((this.AddElement X t d).1.sharedData = some sd ∨
      (this.AddElement X t d).1.sharedData = some (Edited sd).1) := by
  rcases hs : this.theSet with _ | s
  · rcases hn : X.E3Set_New with _ | s
    · simp [AddElement, hset, hs, hn, h]
    · by_cases hr : (X.Add s (if t = X.kQ3ElementTypeSet then X.kQ3ObjectTypeSetElement
          else t) d).2 = kQ3Failure <;>
        simp [AddElement, hset, hs, hn, h, hr, castEdited]
  · by_cases hr : (X.Add s (if t = X.kQ3ElementTypeSet then X.kQ3ObjectTypeSetElement
        else t) d).2 = kQ3Failure <;>
      simp [AddElement, hset, hs, h, hr, castEdited]

theorem ClearElement_shared (X : E3SetClass σ) (this : OpaqueTQ3Object σ)
    (t : TQ3ElementType) (sd : TQ3SharedData) (h : this.sharedData = some sd)
    (hset : this.isE3Set = false) :
    (this.ClearElement X t).1.isE3Set = false ∧
    ((this.ClearElement X t).1.sharedData = some sd ∨
      (this.ClearElement X t).1.sharedData = some (Edited sd).1) := by
  rcases hs : this.theSet with _ | s
  · simp [ClearElement, hset, hs, h]
  · by_cases hr : (X.Q3Set_Clear s (if t = X.kQ3ElementTypeSet then X.kQ3ObjectTypeSetElement
        else t)).2 = kQ3Failure <;>
      simp [ClearElement, hset, hs, h, hr, castEdited]

theorem EmptyElements_shared (X : E3SetClass σ) (this : OpaqueTQ3Object σ)
    (sd : TQ3SharedData) (h : this.sharedData = some sd)
    (hset : this.isE3Set = false) :
    (this.EmptyElements X).1.isE3Set = false ∧
    ((this.EmptyElements X).1.sharedData = some sd ∨
      (this.EmptyElements X).1.sharedData = some (Edited sd).1) := by
  rcases hs : this.theSet with _ | s
  · simp [EmptyElements, hset, hs, h]
  · by_cases hr : (X.Q3Set_Empty s).2 = kQ3Failure <;>
      simp [EmptyElements, hset, hs, h, hr, castEdited]

theorem call_shared_of_not_set (X : E3SetClass σ) (this : OpaqueTQ3Object σ) (c : ObjectCall σ)
    (sd : TQ3SharedData) (h : this.sharedData = some sd) (hset : this.isE3Set = false) :
    (this.call X c).isE3Set = false ∧
    ∃ sd1, (this.call X c).sharedData = some sd1 ∧ SharedStep sd sd1 := by
  unfold SharedStep
  cases c with
  | Edited => simp [call, onShared, h, hset]
  | SetEditIndexLocked b => cases b <;> simp [call, onShared, h, hset]
  | GetReference => simp [call, onShared, h, hset]
  | SetProperty t n d mem =>
    obtain ⟨h1, h2⟩ := SetProperty_shared this t n d mem sd h
    refine ⟨by simpa [call, hset] using h1, ?_⟩
    rcases h2 with h2 | h2 | h2 <;> simp [call, h2]
  | RemoveProperty t =>
    obtain ⟨h1, h2⟩ := RemoveProperty_shared this t sd h
    refine ⟨by simpa [call, hset] using h1, ?_⟩
    rcases h2 with h2 | h2 <;> simp [call, h2]
  | AddElement t d =>
    obtain ⟨h1, h2⟩ := AddElement_shared X this t d sd h hset
    refine ⟨by simpa [call] using h1, ?_⟩
    rcases h2 with h2 | h2 <;> simp [call, h2]
  | ClearElement t =>
    obtain ⟨h1, h2⟩ := ClearElement_shared X this t sd h hset
    refine ⟨by simpa [call] using h1, ?_⟩
    rcases h2 with h2 | h2 <;> simp [call, h2]
  | EmptyElements =>
    obtain ⟨h1, h2⟩ := EmptyElements_shared X this sd h hset
    refine ⟨by simpa [call] using h1, ?_⟩
    rcases h2 with h2 | h2 <;> simp [call, h2]
  | SetSet set => simp [call, SetSet, h, hset]

theorem call_shared (X : E3SetClass σ) (this : OpaqueTQ3Object σ) (c : ObjectCall σ)
    (sd : TQ3SharedData) (h : this.sharedData = some sd)
    (hset : this.isE3Set = false ∨ X.selfCallsEdit) :
    ((this.call X c).isE3Set = false ∨ X.selfCallsEdit) ∧
    ∃ sd1, (this.call X c).sharedData = some sd1 ∧ SharedStep sd sd1 := by
  rcases hset with hset | hX
  · obtain ⟨h1, h2⟩ := call_shared_of_not_set X this c sd h hset
    exact ⟨Or.inl h1, h2⟩
  · refine ⟨Or.inr hX, ?_⟩
    by_cases hs : this.isE3Set = false
    · exact (call_shared_of_not_set X this c sd h hs).2
    · have hs1 : this.isE3Set = true := by simpa using hs
      obtain ⟨hadd, hclear, hempty⟩ := hX this sd h
      cases c with
      | Edited => simp [SharedStep, call, onShared, h]
      | SetEditIndexLocked b => cases b <;> simp [SharedStep, call, onShared, h]
      | GetReference => simp [SharedStep, call, onShared, h]
      | SetProperty t n d mem =>
        obtain ⟨_, h2⟩ := SetProperty_shared this t n d mem sd h
        rcases h2 with h2 | h2 | h2 <;> simp [SharedStep, call, h2]
      | RemoveProperty t =>
        obtain ⟨_, h2⟩ := RemoveProperty_shared this t sd h
        rcases h2 with h2 | h2 <;> simp [SharedStep, call, h2]
      | AddElement t d =>
        simpa [call, AddElement, hs1] using hadd _ d
      | ClearElement t =>
        simpa [call, ClearElement, hs1] using hclear _
      | EmptyElements =>
        simpa [call, EmptyElements, hs1] using hempty
      | SetSet set => simp [SharedStep, call, SetSet, h]

theorem calls_shared (X : E3SetClass σ) (cs : List (ObjectCall σ)) (this : OpaqueTQ3Object σ)
    (sd : TQ3SharedData) (h : this.sharedData = some sd)
    (hset : this.isE3Set = false ∨ X.selfCallsEdit)
    (hr : isInt32 sd.editIndex) :
    ((this.calls X cs).isE3Set = false ∨ X.selfCallsEdit) ∧
    ∃ sd1, (this.calls X cs).sharedData = some sd1 ∧ isInt32 sd1.editIndex ∧
      GetEditIndex sd ≤ GetEditIndex sd1 := by
  induction cs generalizing this sd with
  | nil => exact ⟨hset, sd, h, hr, le_refl _⟩
  | cons c cs ih =>
    obtain ⟨hset1, sd1, hsd1, hstep⟩ := call_shared X this c sd h hset
    obtain ⟨hr1, hle1⟩ := hstep.mono hr
    obtain ⟨hset2, sd2, hsd2, hr2, hle2⟩ := ih (this.call X c) sd1 hsd1 hset1 hr1
    exact ⟨hset2, sd2, hsd2, hr2, le_trans hle1 hle2⟩

end OpaqueTQ3Object

namespace OpaqueTQ3Object

variable {σ : Type}

theorem E3Shared_Edited_raises (sd : TQ3SharedData) (hr : isInt32 sd.editIndex)
    (hu : IsEditIndexLocked sd = false) :
    GetEditIndex sd < GetEditIndex (Edited sd).1 ∧
      GetEditIndex sd < GetEditIndex (Edited (Edited sd).1).1 := by
  obtain ⟨h1, _⟩ := E3Shared.Edited_mono sd hr
  obtain ⟨h3, h4⟩ := E3Shared.Edited_mono _ h1
  rw [E3Shared.GetEditIndex_eq_natAbs sd hr, E3Shared.GetEditIndex_eq_natAbs _ h1,
    E3Shared.GetEditIndex_eq_natAbs _ h3]
  have hlt : sd.editIndex.natAbs < (Edited sd).1.editIndex.natAbs := by
    have h0 : 0 ≤ sd.editIndex := by
      simpa [IsEditIndexLocked] using hu
    unfold isInt32 at hr
    rw [E3Shared.Edited_editIndex]
    unfold toInt32
    split <;> omega
  exact ⟨hlt, lt_of_lt_of_le hlt h4⟩

/-- The five mutators that call `Edited`: on a valid shared object that is not a set and
whose edit index is unlocked, a successful `SetProperty`, `RemoveProperty`, `AddElement`,
and a successful `ClearElement` or `EmptyElements` on an object that has a set, leave
`GetEditIndex` strictly greater than before. -/
theorem mutators_raise_editIndex (X : E3SetClass σ) (this : OpaqueTQ3Object σ)
    (sd : TQ3SharedData) (h : this.sharedData = some sd) (hv : this.isObjectValid = true)
    (hset : this.isE3Set = false) (hr : isInt32 sd.editIndex)
    (hu : IsEditIndexLocked sd = false) :
    (∀ t n d mem, (this.SetProperty t n d mem).2 = kQ3Success →
      ∃ sd1, (this.SetProperty t n d mem).1.sharedData = some sd1 ∧
        GetEditIndex sd < GetEditIndex sd1) ∧
    (∀ t, (this.RemoveProperty t).2 = kQ3Success →
      ∃ sd1, (this.RemoveProperty t).1.sharedData = some sd1 ∧
        GetEditIndex sd < GetEditIndex sd1) ∧
    (∀ t d, (this.AddElement X t d).2 ≠ kQ3Failure →
      ∃ sd1, (this.AddElement X t d).1.sharedData = some sd1 ∧
        GetEditIndex sd < GetEditIndex sd1) ∧
    (∀ t, this.theSet ≠ none → (this.ClearElement X t).2 ≠ kQ3Failure →
      ∃ sd1, (this.ClearElement X t).1.sharedData = some sd1 ∧
        GetEditIndex sd < GetEditIndex sd1) ∧
    (this.theSet ≠ none → (this.EmptyElements X).2 ≠ kQ3Failure →
      ∃ sd1, (this.EmptyElements X).1.sharedData = some sd1 ∧
        GetEditIndex sd < GetEditIndex sd1) := by
  obtain ⟨hone, htwo⟩ := E3Shared_Edited_raises sd hr hu
  refine ⟨?_, ?_, ?_, ?_, ?_⟩
  · intro t n d mem
    rcases hpt : this.propertyTable with _ | tbl
    · cases hc : mem.tableCreated <;> cases ha : mem.blockAllocated <;>
        cases hi : mem.itemAdded <;>
        simp [SetProperty, hpt, hc, ha, hi, hv, h, E3HashTable_Create, RemoveProperty,
          E3HashTable_Find, E3HashTable_Add, E3Shared_IsOfMyClass, E3Shared_Edited,
          castEdited, hone]
    · cases hf : E3HashTable_Find tbl t <;> cases ha : mem.blockAllocated <;>
        cases hi : mem.itemAdded <;>
        simp [SetProperty, hpt, ha, hi, hv, hf, h, RemoveProperty, E3HashTable_Add,
          E3Shared_IsOfMyClass, E3Shared_Edited, castEdited, hone, htwo]
  · intro t
    rcases hpt : this.propertyTable with _ | tbl
    · simp [RemoveProperty, hpt]
    · cases hf : E3HashTable_Find tbl t <;>
        simp [RemoveProperty, hpt, hf, hv, h, E3Shared_IsOfMyClass, E3Shared_Edited,
          castEdited, hone]
  · intro t d
    rcases hs : this.theSet with _ | s
    · rcases hn : X.E3Set_New with _ | s
      · simp [AddElement, hset, hs, hn]
      · by_cases hst : (X.Add s (if t = X.kQ3ElementTypeSet then X.kQ3ObjectTypeSetElement
            else t) d).2 = kQ3Failure <;>
          simp [AddElement, hset, hs, hn, h, hst, castEdited, hone]
    · by_cases hst : (X.Add s (if t = X.kQ3ElementTypeSet then X.kQ3ObjectTypeSetElement
          else t) d).2 = kQ3Failure <;>
        simp [AddElement, hset, hs, h, hst, castEdited, hone]
  · intro t hs
    rcases hs1 : this.theSet with _ | s
    · exact absurd hs1 hs
    · by_cases hst : (X.Q3Set_Clear s (if t = X.kQ3ElementTypeSet
          then X.kQ3ObjectTypeSetElement else t)).2 = kQ3Failure <;>
        simp [ClearElement, hset, hs1, h, hst, castEdited, hone]
  · intro hs
    rcases hs1 : this.theSet with _ | s
    · exact absurd hs1 hs
    · by_cases hst : (X.Q3Set_Empty s).2 = kQ3Failure <;>
        simp [EmptyElements, hset, hs1, h, hst, castEdited, hone]

end OpaqueTQ3Object

/-- C4: along every sequence of `Edited`, `SetEditIndexLocked`, `GetReference`, property and
element calls (no `SetEditIndex`) applied to a shared object initialised by `e3shared_new`,
the value of `GetEditIndex` after any prefix of the sequence is at most its value after the
whole sequence: the edit index never decreases. The object is not itself a set, or else the
methods of the set class, which are outside these sources, are taken to change the shared
data only as the calls considered here do. -/
theorem GetEditIndex_never_decreases {σ : Type} (X : E3SetClass σ)
    (this : OpaqueTQ3Object σ) (theObject : TQ3SharedData)
    (hnew : this.sharedData = some (e3shared_new theObject).1)
    (hset : this.isE3Set = false ∨ X.selfCallsEdit) (pre post : List (ObjectCall σ)) :
    ∃ i j, (this.calls X pre).editIndex? = some i ∧
      (this.calls X (pre ++ post)).editIndex? = some j ∧ i ≤ j := by
  have hr : isInt32 (e3shared_new theObject).1.editIndex := by
    show isInt32 1
    decide
  obtain ⟨hset1, sd1, hsd1, hr1, _⟩ :=
    OpaqueTQ3Object.calls_shared X pre this _ hnew hset hr
  obtain ⟨_, sd2, hsd2, _, hle2⟩ :=
    OpaqueTQ3Object.calls_shared X post (this.calls X pre) sd1 hsd1 hset1 hr1
  refine ⟨GetEditIndex sd1, GetEditIndex sd2, ?_, ?_, hle2⟩
  · simp [OpaqueTQ3Object.editIndex?, hsd1]
  · have : this.calls X (pre ++ post) = (this.calls X pre).calls X post := by
      simp [OpaqueTQ3Object.calls]
    rw [this]
    simp [OpaqueTQ3Object.editIndex?, hsd2]

/-- C4 on a concrete run of a new shared object: a property is set twice, the index is
locked, an element is added, the index is unlocked, and the set is replaced. -/
theorem GetEditIndex_never_decreases_witness :
    newSharedObject.sharedData = some (e3shared_new ⟨0, 0⟩).1 ∧
    newSharedObject.isE3Set = false ∧
    ∃ i j,
      (newSharedObject.calls listSetClass
        [ObjectCall.SetProperty 7 1 [42] ⟨true, true, true⟩,
         ObjectCall.SetProperty 7 1 [43] ⟨true, true, true⟩]).editIndex? = some i ∧
      (newSharedObject.calls listSetClass
        ([ObjectCall.SetProperty 7 1 [42] ⟨true, true, true⟩,
          ObjectCall.SetProperty 7 1 [43] ⟨true, true, true⟩] ++
         [ObjectCall.SetEditIndexLocked true, ObjectCall.AddElement 5 [],
          ObjectCall.SetEditIndexLocked false, ObjectCall.SetSet none])).editIndex? = some j ∧
      i ≤ j :=
  ⟨rfl, rfl,
   GetEditIndex_never_decreases listSetClass newSharedObject ⟨0, 0⟩ rfl (Or.inl rfl) _ _⟩

theorem slowPathMask_step :
    ∀ m ∈ slowPathReasons, ∀ x < 32,
      (m ||| x) < 32 ∧ (m ||| x) ≠ 0 ∧
      ∀ r ∈ slowPathReasons, (((m ||| x) &&& r ≠ 0) ↔ (r = m ∨ x &&& r ≠ 0)) := by
  decide

theorem slowPathMaskOf_bits (reasons : List Nat) (h : ∀ r ∈ reasons, r ∈ slowPathReasons) :
    slowPathMaskOf reasons < 32 ∧
    ∀ r ∈ slowPathReasons, (slowPathMaskOf reasons &&& r ≠ 0 ↔ r ∈ reasons) := by
  induction reasons with
  | nil =>
    refine ⟨by decide, ?_⟩
    intro r _
    simp [slowPathMaskOf, kSlowPathMask_FastPath]
  | cons m l ih =>
    have hm : m ∈ slowPathReasons := h m (List.mem_cons_self _ _)
    obtain ⟨hlt, hbits⟩ := ih (fun r hr => h r (List.mem_cons_of_mem _ hr))
    obtain ⟨h1, _, h3⟩ := slowPathMask_step m hm _ hlt
    refine ⟨h1, ?_⟩
    intro r hr
    have h4 := h3 r hr
    have h5 := hbits r hr
    show (m ||| slowPathMaskOf l) &&& r ≠ 0 ↔ r ∈ m :: l
    rw [h4, h5, List.mem_cons]

/-- C5: `kSlowPathMask_FastPath` is 0; the five slow-path reasons are pairwise distinct,
non-zero and single-bit; and for every collection of reasons the bitwise OR of its members
equals `kSlowPathMask_FastPath` exactly when the collection is empty, while the bitwise AND
of that OR with a reason is non-zero exactly when the reason belongs to the collection. -/
theorem slowPathMask_fastPath_iff_no_reason (reasons : List Nat)
    (h : ∀ r ∈ reasons, r ∈ slowPathReasons) :
    kSlowPathMask_FastPath = 0 ∧
    slowPathReasons.Nodup ∧ slowPathReasons.length = 5 ∧
    (∀ r ∈ slowPathReasons, r ≠ 0 ∧ ∃ k, r = 2 ^ k) ∧
    (slowPathMaskOf reasons = kSlowPathMask_FastPath ↔ reasons = []) ∧
    (∀ r ∈ slowPathReasons, (slowPathMaskOf reasons &&& r ≠ 0 ↔ r ∈ reasons)) := by
  refine ⟨rfl, by decide, rfl, ?_, ?_, (slowPathMaskOf_bits reasons h).2⟩
  · intro r hr
    simp only [slowPathReasons, List.mem_cons, List.mem_singleton, List.not_mem_nil,
      or_false] at hr
    rcases hr with hr | hr | hr | hr | hr <;> subst hr
    · exact ⟨by decide, 0, by decide⟩
    · exact ⟨by decide, 1, by decide⟩
    · exact ⟨by decide, 2, by decide⟩
    · exact ⟨by decide, 3, by decide⟩
    · exact ⟨by decide, 4, by decide⟩
  · constructor
    · intro h0
      cases reasons with
      | nil => rfl
      | cons m l =>
        exfalso
        have hm : m ∈ slowPathReasons := h m (List.mem_cons_self _ _)
        have hl := (slowPathMaskOf_bits l (fun r hr => h r (List.mem_cons_of_mem _ hr))).1
        exact (slowPathMask_step m hm _ hl).2.1 h0
    · intro h0
      subst h0
      rfl

/-- C5 on the collection made of the face-colour and emissive-colour reasons. -/
theorem slowPathMask_fastPath_iff_no_reason_witness :
    (∀ r ∈ [kSlowPathMask_FaceColors, kSlowPathMask_EmissiveColor], r ∈ slowPathReasons) ∧
    (slowPathMaskOf [kSlowPathMask_FaceColors, kSlowPathMask_EmissiveColor] &&&
        kSlowPathMask_EmissiveColor ≠ 0 ↔
      kSlowPathMask_EmissiveColor ∈
        [kSlowPathMask_FaceColors, kSlowPathMask_EmissiveColor]) :=
  ⟨by decide,
   (slowPathMask_fastPath_iff_no_reason
      [kSlowPathMask_FaceColors, kSlowPathMask_EmissiveColor] (by decide)).2.2.2.2.2
      kSlowPathMask_EmissiveColor (by decide)⟩

/-- C6 (as the code has it): for a shared object whose reference count `n` satisfies
`1 ≤ n` and `n + 1 < 2^32`, `GetReference` returns the object with reference count `n + 1`
(so at least 2, as the code asserts) and everything else, the edit index included,
unchanged; `E3Shared_AddReference` on a null pointer does nothing. -/
theorem GetReference_increments_refCount (this : TQ3SharedData) (h1 : 1 ≤ this.refCount)
    (hov : this.refCount + 1 < 4294967296) :
    GetReference this = { this with refCount := this.refCount + 1 } ∧
    GetReferenceCount (GetReference this) = this.refCount + 1 ∧
    2 ≤ GetReferenceCount (GetReference this) ∧
    (GetReference this).editIndex = this.editIndex ∧
    GetEditIndex (GetReference this) = GetEditIndex this ∧
    E3Shared_AddReference none = none := by
  have h : GetReference this = { this with refCount := this.refCount + 1 } := by
    simp only [GetReference, E3Shared_AddReference]
    rw [Nat.mod_eq_of_lt hov]
  rw [h]
  refine ⟨rfl, rfl, ?_, rfl, rfl, rfl⟩
  show 2 ≤ this.refCount + 1
  omega

/-- C6 on an object that holds three references. -/
theorem GetReference_increments_refCount_witness :
    1 ≤ (3 : Nat) ∧ 3 + 1 < 4294967296 ∧
    GetReferenceCount (GetReference ⟨3, -9⟩) = 4 ∧ GetEditIndex (GetReference ⟨3, -9⟩) = 9 :=
  ⟨by decide, by decide,
   (GetReference_increments_refCount ⟨3, -9⟩ (by decide) (by decide)).2.1,
   (GetReference_increments_refCount ⟨3, -9⟩ (by decide) (by decide)).2.2.2.2.1⟩

/-- C6 fails as stated at the largest count a `TQ3Uns32` holds: with `n = 2^32 - 1` the
count after `GetReference` is 0, not `n + 1`. -/
theorem GetReference_overflow_counterexample :
    1 ≤ GetReferenceCount ⟨4294967295, 1⟩ ∧
    GetReferenceCount (GetReference ⟨4294967295, 1⟩) = 0 ∧
    GetReferenceCount (GetReference ⟨4294967295, 1⟩) ≠ GetReferenceCount ⟨4294967295, 1⟩ + 1 := by
  decide

/-- C7: for a shared object with reference count `n ≥ 1` (a `TQ3Uns32`), `E3Shared_Dispose`
leaves the object with count `n - 1` when `n ≠ 1`, calls `DestroyInstance` exactly when
`n = 1` (after which no object remains), and does nothing when called with a null pointer. -/
theorem E3Shared_Dispose_decrements_refCount (theObject : TQ3SharedData)
    (h1 : 1 ≤ theObject.refCount) (hu : isUns32 theObject.refCount) :
    E3Shared_Dispose (some theObject) =
      (if theObject.refCount = 1 then none
        else some { theObject with refCount := theObject.refCount - 1 },
       decide (theObject.refCount = 1)) ∧
    ((E3Shared_Dispose (some theObject)).2 = true ↔ theObject.refCount = 1) ∧
    E3Shared_Dispose none = (none, false) := by
  unfold isUns32 at hu
  have hm : (theObject.refCount + 4294967295) % 4294967296 = theObject.refCount - 1 := by
    omega
  have h : E3Shared_Dispose (some theObject) =
      (if theObject.refCount = 1 then none
        else some { theObject with refCount := theObject.refCount - 1 },
       decide (theObject.refCount = 1)) := by
    simp only [E3Shared_Dispose, hm]
    by_cases hn : theObject.refCount = 1
    · simp [hn, DestroyInstance]
    · have : ¬ theObject.refCount - 1 = 0 := by omega
      simp [hn, this]
  refine ⟨h, ?_, rfl⟩
  rw [h]
  simp

/-- C7 on an object with one reference and on an object with two. -/
theorem E3Shared_Dispose_decrements_refCount_witness :
    (1 ≤ (1 : Nat) ∧ isUns32 1 ∧ E3Shared_Dispose (some ⟨1, 5⟩) = (none, true)) ∧
    (1 ≤ (2 : Nat) ∧ isUns32 2 ∧ E3Shared_Dispose (some ⟨2, 5⟩) = (some ⟨1, 5⟩, false)) :=
  ⟨⟨by decide, by decide,
    (E3Shared_Dispose_decrements_refCount ⟨1, 5⟩ (by decide) (by decide)).1⟩,
   ⟨by decide, by decide,
    (E3Shared_Dispose_decrements_refCount ⟨2, 5⟩ (by decide) (by decide)).1⟩⟩

/-- C8 (as the code has it): with four non-null pointers `e3shared_duplicate` returns
`kQ3Success`, gives the copy reference count 1 whatever the count of the source, and an edit
index for which `GetEditIndex` of the copy equals `GetEditIndex` of the source; the copy is
unlocked, also when the source is locked, unless the source stores `-2^31`, the one
`TQ3Int32` whose absolute value does not fit: then the copy is locked. With a null pointer
among the four the result is `kQ3Failure` and the target is left alone. -/
theorem e3shared_duplicate_fresh_count (fromObject toObject : TQ3SharedData)
    (fromPrivateData toPrivateData : Nat) (hr : isInt32 fromObject.editIndex) :
    (e3shared_duplicate (some fromObject) (some fromPrivateData)
        (some toObject) (some toPrivateData)).2 = kQ3Success ∧
    (∃ copy, (e3shared_duplicate (some fromObject) (some fromPrivateData)
        (some toObject) (some toPrivateData)).1 = some copy ∧
      GetReferenceCount copy = 1 ∧
      GetEditIndex copy = GetEditIndex fromObject ∧
      (IsEditIndexLocked copy = true ↔ fromObject.editIndex = -2147483648)) ∧
    (∀ (src dst : Option TQ3SharedData) (srcData dstData : Option Nat),
      src = none ∨ srcData = none ∨ dst = none ∨ dstData = none →
      e3shared_duplicate src srcData dst dstData = (dst, kQ3Failure)) := by
  refine ⟨rfl, ⟨_, rfl, rfl, ?_, ?_⟩, ?_⟩
  · unfold isInt32 at hr
    simp only [GetEditIndex]
    unfold E3Integer_Abs toInt32 toUns32
    split <;> split <;> omega
  · unfold isInt32 at hr
    simp only [IsEditIndexLocked, decide_eq_true_eq]
    unfold E3Integer_Abs toInt32
    split <;> omega
  · intro src dst srcData dstData h
    rcases h with h | h | h | h <;> subst h
    · rfl
    · cases src <;> rfl
    · cases src <;> cases srcData <;> rfl
    · cases src <;> cases srcData <;> cases dst <;> rfl

/-- C8 on a locked source that holds five references. -/
theorem e3shared_duplicate_fresh_count_witness :
    isInt32 (-7) ∧
    ∃ copy, (e3shared_duplicate (some ⟨5, -7⟩) (some 0) (some ⟨0, 0⟩) (some 0)).1 = some copy ∧
      GetReferenceCount copy = 1 ∧
      GetEditIndex copy = GetEditIndex ⟨5, -7⟩ ∧
      (IsEditIndexLocked copy = true ↔ (-7 : Int) = -2147483648) :=
  ⟨by decide, (e3shared_duplicate_fresh_count ⟨5, -7⟩ ⟨0, 0⟩ 0 0 (by decide)).2.1⟩

/-- C8 fails as stated on a source whose edit index was set to `2^31` through
`SetEditIndex`: the stored index is `-2^31`, and the copy made by `e3shared_duplicate`
stores `-2^31` too, so the copy is locked. -/
theorem e3shared_duplicate_locked_counterexample :
    SetEditIndex (e3shared_new ⟨0, 0⟩).1 2147483648 = ⟨1, -2147483648⟩ ∧
    (e3shared_duplicate (some (SetEditIndex (e3shared_new ⟨0, 0⟩).1 2147483648)) (some 0)
        (some ⟨0, 0⟩) (some 0)).2 = kQ3Success ∧
    (e3shared_duplicate (some (SetEditIndex (e3shared_new ⟨0, 0⟩).1 2147483648)) (some 0)
        (some ⟨0, 0⟩) (some 0)).1.map IsEditIndexLocked = some true := by
  decide

theorem E3HashTable_Find_cons (theTable : E3HashTable) (k k1 : TQ3ObjectType)
    (v : PropertyItem) :
    E3HashTable_Find ((k, v) :: theTable) k1 =
      if k1 = k then some v else E3HashTable_Find theTable k1 := by
  unfold E3HashTable_Find
  by_cases h : k1 = k
  · subst h
    simp [List.lookup]
  · have : (k1 == k) = false := by simpa using h
    simp [List.lookup, this, h]

theorem E3HashTable_Find_Remove (theTable : E3HashTable) (k k1 : TQ3ObjectType) :
    E3HashTable_Find (E3HashTable_Remove theTable k) k1 =
      if k1 = k then none else E3HashTable_Find theTable k1 := by
  induction theTable with
  | nil =>
    simp [E3HashTable_Remove, E3HashTable_Find, List.lookup]
  | cons e l ih =>
    obtain ⟨a, v⟩ := e
    by_cases ha : a = k
    · subst ha
      have hrm : E3HashTable_Remove ((a, v) :: l) a = E3HashTable_Remove l a := by
        simp [E3HashTable_Remove]
      rw [hrm, ih, E3HashTable_Find_cons]
      by_cases h1 : k1 = a <;> simp [h1]
    · have hrm : E3HashTable_Remove ((a, v) :: l) k = (a, v) :: E3HashTable_Remove l k := by
        simp [E3HashTable_Remove, ha]
      rw [hrm, E3HashTable_Find_cons, E3HashTable_Find_cons, ih]
      by_cases h1 : k1 = a
      · have : ¬ k1 = k := by rw [h1]; exact ha
        simp [h1, this, ha]
      · simp [h1]

namespace OpaqueTQ3Object

variable {σ : Type}

theorem GetProperty_eq_of_find (this : OpaqueTQ3Object σ) (t : TQ3ObjectType)
    (inBufferSize : Nat) (outDataSize : Option Nat) (outDataBuffer : Option (List Nat)) :
    this.GetProperty t inBufferSize outDataSize outDataBuffer =
      match this.findProperty t with
      | none => (kQ3Failure, outDataSize, outDataBuffer)
      | some itemAddr =>
        (kQ3Success,
         outDataSize.map (fun _ =>
           match outDataBuffer with
           | none => itemAddr.dataSize
           | some _ => min itemAddr.dataSize inBufferSize),
         outDataBuffer.map (fun buf =>
           if (match outDataBuffer with
               | none => itemAddr.dataSize
               | some _ => min itemAddr.dataSize inBufferSize) > 0
           then itemAddr.data.take (match outDataBuffer with
               | none => itemAddr.dataSize
               | some _ => min itemAddr.dataSize inBufferSize) ++
             buf.drop (match outDataBuffer with
               | none => itemAddr.dataSize
               | some _ => min itemAddr.dataSize inBufferSize)
           else buf)) := by
  unfold GetProperty findProperty
  cases this.propertyTable with
  | none => rfl
  | some table => rfl

theorem GetPropertyAddress_eq_of_find (this : OpaqueTQ3Object σ) (t : TQ3ObjectType) :
    this.GetPropertyAddress t = (this.findProperty t).map (fun itemAddr => itemAddr.data) := by
  unfold GetPropertyAddress findProperty
  cases this.propertyTable with
  | none => rfl
  | some table =>
    dsimp only
    cases E3HashTable_Find table t <;> rfl

theorem RemoveProperty_find (this : OpaqueTQ3Object σ) (t : TQ3ObjectType) :
    ((this.RemoveProperty t).2 = kQ3Success ↔ (this.findProperty t).isSome = true) ∧
    ((this.RemoveProperty t).2 = kQ3Failure → (this.RemoveProperty t).1 = this) ∧
    (∀ t1, (this.RemoveProperty t).1.findProperty t1 =
      if t1 = t then none else this.findProperty t1) := by
  rcases hpt : this.propertyTable with _ | tbl
  · simp [RemoveProperty, findProperty, hpt]
  · rcases hf : E3HashTable_Find tbl t with _ | item
    · refine ⟨by simp [RemoveProperty, findProperty, hpt, hf],
        by simp [RemoveProperty, findProperty, hpt, hf], ?_⟩
      intro t1
      by_cases h1 : t1 = t
      · subst h1
        simp [RemoveProperty, findProperty, hpt, hf]
      · simp [RemoveProperty, findProperty, hpt, hf, h1]
    · refine ⟨?_, ?_, ?_⟩
      · cases hc : E3Shared_IsOfMyClass (some
            ({ this with propertyTable := some (E3HashTable_Remove tbl t) } :
              OpaqueTQ3Object σ)) <;>
          simp [RemoveProperty, findProperty, hpt, hf, hc]
      · cases hc : E3Shared_IsOfMyClass (some
            ({ this with propertyTable := some (E3HashTable_Remove tbl t) } :
              OpaqueTQ3Object σ)) <;>
          simp [RemoveProperty, findProperty, hpt, hf, hc]
      · intro t1
        cases hc : E3Shared_IsOfMyClass (some
            ({ this with propertyTable := some (E3HashTable_Remove tbl t) } :
              OpaqueTQ3Object σ)) <;>
          simp [RemoveProperty, findProperty, hpt, hf, hc, E3Shared_Edited, castEdited,
            E3HashTable_Find_Remove]

theorem SetProperty_find (this : OpaqueTQ3Object σ) (t : TQ3ObjectType) (n : Nat)
    (d : List Nat) (mem : E3MemoryOutcome)
    (hc : this.propertyTable ≠ none ∨ mem.tableCreated = true)
    (ha : mem.blockAllocated = true) (hi : mem.itemAdded = true) :
    (this.SetProperty t n d mem).2 = kQ3Success ∧
    ∀ t1, (this.SetProperty t n d mem).1.findProperty t1 =
      if t1 = t then some { dataSize := n, data := d.take n } else this.findProperty t1 := by
  rcases hpt : this.propertyTable with _ | tbl
  · have hcr : mem.tableCreated = true := by
      rcases hc with hc | hc
      · exact absurd hpt hc
      · exact hc
    have hnil : ∀ k, E3HashTable_Find [] k = none := fun _ => rfl
    cases hv : this.isObjectValid <;>
      cases hs : this.sharedData <;>
      simp [SetProperty, hpt, hcr, ha, hi, hv, hs, E3HashTable_Create, RemoveProperty,
        hnil, E3HashTable_Add, E3Shared_IsOfMyClass, E3Shared_Edited,
        castEdited, findProperty, E3HashTable_Find_cons]
  · rcases hf : E3HashTable_Find tbl t with _ | item <;>
      cases hv : this.isObjectValid <;>
      cases hs : this.sharedData <;>
      simp [SetProperty, hpt, ha, hi, hv, hf, hs, RemoveProperty,
        E3HashTable_Add, E3Shared_IsOfMyClass, E3Shared_Edited,
        castEdited, findProperty, E3HashTable_Find_cons, E3HashTable_Find_Remove] <;>
      (try (intro t1; by_cases h1 : t1 = t <;> simp [h1]))

end OpaqueTQ3Object

/-- C9: when the table exists or can be created, the block is allocated and the hash-table
insert succeeds, `SetProperty(t, n, d)` returns `kQ3Success`; afterwards `GetProperty(t)`
with a buffer of at least `n` bytes returns `kQ3Success`, reports size `n` and puts exactly
the first `n` bytes of `d` at the start of the buffer (the rest of the buffer is untouched),
whether or not `t` had a value before; and `GetProperty` for every other type gives what it
gave before the call. -/
theorem SetProperty_then_GetProperty {σ : Type} (this : OpaqueTQ3Object σ)
    (t : TQ3ObjectType) (n : Nat) (d : List Nat) (mem : E3MemoryOutcome)
    (inBufferSize : Nat) (outDataSize : Option Nat) (buf : List Nat)
    (hc : this.propertyTable ≠ none ∨ mem.tableCreated = true)
    (ha : mem.blockAllocated = true) (hi : mem.itemAdded = true)
    (hd : n ≤ d.length) (hb : n ≤ inBufferSize) :
    (this.SetProperty t n d mem).2 = kQ3Success ∧
    (this.SetProperty t n d mem).1.GetProperty t inBufferSize outDataSize (some buf) =
      (kQ3Success, outDataSize.map (fun _ => n), some (d.take n ++ buf.drop n)) ∧
    (d.take n ++ buf.drop n).take n = d.take n ∧
    (d.take n).length = n ∧
    (∀ t1, t1 ≠ t → ∀ bs sz bf,
      (this.SetProperty t n d mem).1.GetProperty t1 bs sz bf = this.GetProperty t1 bs sz bf) := by
  obtain ⟨hst, hfind⟩ := OpaqueTQ3Object.SetProperty_find this t n d mem hc ha hi
  have hlen : (d.take n).length = n := by
    rw [List.length_take]; omega
  refine ⟨hst, ?_, ?_, hlen, ?_⟩
  · rw [OpaqueTQ3Object.GetProperty_eq_of_find, hfind t]
    have hmin : min n inBufferSize = n := Nat.min_eq_left hb
    simp only [if_true, hmin, Option.map_some']
    by_cases hn : n > 0
    · simp [hn]
    · have h0 : n = 0 := by omega
      subst h0
      simp
  · exact List.take_left' hlen
  · intro t1 h1 bs sz bf
    rw [OpaqueTQ3Object.GetProperty_eq_of_find, OpaqueTQ3Object.GetProperty_eq_of_find,
      hfind t1]
    simp [h1]

/-- C9 on a new object: property 7 is written twice and read back into a four-byte
buffer; the last write wins. -/
theorem SetProperty_then_GetProperty_witness :
    ((newSharedObject.SetProperty 7 1 [9] ⟨true, true, true⟩).1.propertyTable ≠ none ∨
      (⟨false, true, true⟩ : E3MemoryOutcome).tableCreated = true) ∧
    (2 ≤ [42, 43, 44].length ∧ 2 ≤ 4) ∧
    ((newSharedObject.SetProperty 7 1 [9] ⟨true, true, true⟩).1.SetProperty 7 2 [42, 43, 44]
        ⟨false, true, true⟩).1.GetProperty 7 4 (some 0) (some [1, 2, 3, 4]) =
      (kQ3Success, some 2, some [42, 43, 3, 4]) :=
  ⟨Or.inl (by decide), ⟨by decide, by decide⟩,
   (SetProperty_then_GetProperty
      (newSharedObject.SetProperty 7 1 [9] ⟨true, true, true⟩).1 7 2 [42, 43, 44]
      ⟨false, true, true⟩ 4 (some 0) [1, 2, 3, 4] (Or.inl (by decide)) rfl rfl
      (by decide) (by decide)).2.1⟩

/-- C10: `RemoveProperty(t)` returns `kQ3Success` exactly when the object had a property of
type `t` (`GetProperty(t)` succeeded, `GetPropertyAddress(t)` was not null); after a
successful removal `GetProperty(t)` returns `kQ3Failure` and `GetPropertyAddress(t)` returns
null, while both give for every other type what they gave before; and when it returns
`kQ3Failure` the object, so its property table and its edit index, is unchanged. -/
theorem RemoveProperty_removes {σ : Type} (this : OpaqueTQ3Object σ) (t : TQ3ObjectType) :
    ((this.RemoveProperty t).2 = kQ3Success ↔ (this.GetPropertyAddress t).isSome = true) ∧
    ((this.RemoveProperty t).2 = kQ3Success ↔
      ∀ bs sz bf, (this.GetProperty t bs sz bf).1 = kQ3Success) ∧
    ((this.RemoveProperty t).2 = kQ3Success →
      (∀ bs sz bf, (this.RemoveProperty t).1.GetProperty t bs sz bf = (kQ3Failure, sz, bf)) ∧
      (this.RemoveProperty t).1.GetPropertyAddress t = none ∧
      (∀ t1, t1 ≠ t →
        (∀ bs sz bf, (this.RemoveProperty t).1.GetProperty t1 bs sz bf =
          this.GetProperty t1 bs sz bf) ∧
        (this.RemoveProperty t).1.GetPropertyAddress t1 = this.GetPropertyAddress t1)) ∧
    ((this.RemoveProperty t).2 = kQ3Failure →
      (this.RemoveProperty t).1 = this ∧
      (this.RemoveProperty t).1.propertyTable = this.propertyTable ∧
      (this.RemoveProperty t).1.sharedData = this.sharedData) := by
  obtain ⟨hiff, hfail, hfind⟩ := OpaqueTQ3Object.RemoveProperty_find this t
  refine ⟨?_, ?_, ?_, ?_⟩
  · rw [hiff, OpaqueTQ3Object.GetPropertyAddress_eq_of_find]
    cases this.findProperty t <;> simp
  · rw [hiff]
    constructor
    · intro h bs sz bf
      rw [OpaqueTQ3Object.GetProperty_eq_of_find]
      cases hf : this.findProperty t with
      | none => simp [hf] at h
      | some item => rfl
    · intro h
      have h0 := h 0 none none
      rw [OpaqueTQ3Object.GetProperty_eq_of_find] at h0
      cases hf : this.findProperty t with
      | none => simp [hf] at h0
      | some item => rfl
  · intro _
    refine ⟨?_, ?_, ?_⟩
    · intro bs sz bf
      rw [OpaqueTQ3Object.GetProperty_eq_of_find, hfind t]
      simp
    · rw [OpaqueTQ3Object.GetPropertyAddress_eq_of_find, hfind t]
      simp
    · intro t1 h1
      refine ⟨?_, ?_⟩
      · intro bs sz bf
        rw [OpaqueTQ3Object.GetProperty_eq_of_find, OpaqueTQ3Object.GetProperty_eq_of_find,
          hfind t1]
        simp [h1]
      · rw [OpaqueTQ3Object.GetPropertyAddress_eq_of_find,
          OpaqueTQ3Object.GetPropertyAddress_eq_of_find, hfind t1]
        simp [h1]
  · intro h
    have := hfail h
    exact ⟨this, by rw [this], by rw [this]⟩

/-- C10 on an object that holds properties 7 and 8: removing 7 succeeds, afterwards 7 is
absent and 8 is still there; removing 7 once more fails. -/
theorem RemoveProperty_removes_witness :
    (((newSharedObject.SetProperty 7 1 [9] ⟨true, true, true⟩).1.SetProperty 8 1 [5]
        ⟨true, true, true⟩).1.RemoveProperty 7).2 = kQ3Success ∧
    ((((newSharedObject.SetProperty 7 1 [9] ⟨true, true, true⟩).1.SetProperty 8 1 [5]
        ⟨true, true, true⟩).1.RemoveProperty 7).1.GetPropertyAddress 7 = none) ∧
    ((((newSharedObject.SetProperty 7 1 [9] ⟨true, true, true⟩).1.SetProperty 8 1 [5]
        ⟨true, true, true⟩).1.RemoveProperty 7).1.GetPropertyAddress 8 = some [5]) :=
  ⟨by decide,
   ((RemoveProperty_removes
      ((newSharedObject.SetProperty 7 1 [9] ⟨true, true, true⟩).1.SetProperty 8 1 [5]
        ⟨true, true, true⟩).1 7).2.2.1 (by decide)).2.1,
   (((RemoveProperty_removes
      ((newSharedObject.SetProperty 7 1 [9] ⟨true, true, true⟩).1.SetProperty 8 1 [5]
        ⟨true, true, true⟩).1 7).2.2.1 (by decide)).2.2 8 (by decide)).2.trans (by decide)⟩

/-- C11 (as the code has it): for a shared object storing a `TQ3Int32` edit index `e`,
`IsEditIndexLocked` after `SetEditIndexLocked (kQ3True)` returns `kQ3True` provided `e ≠ 0`,
and `IsEditIndexLocked` after `SetEditIndexLocked (kQ3False)` returns `kQ3False` provided
`e ≠ -2^31`. -/
theorem SetEditIndexLocked_then_IsEditIndexLocked (this : TQ3SharedData)
    (hr : isInt32 this.editIndex) :
    (this.editIndex ≠ 0 → IsEditIndexLocked (SetEditIndexLocked this true) = true) ∧
    (this.editIndex ≠ -2147483648 →
      IsEditIndexLocked (SetEditIndexLocked this false) = false) := by
  unfold isInt32 at hr
  constructor
  · intro h0
    simp only [IsEditIndexLocked, SetEditIndexLocked, if_true, decide_eq_true_eq]
    unfold E3Integer_Abs toInt32
    split <;> omega
  · intro hmin
    simp only [IsEditIndexLocked, SetEditIndexLocked, Bool.false_eq_true, if_false,
      decide_eq_false_iff_not]
    unfold E3Integer_Abs toInt32
    split <;> omega

/-- C11 on an unlocked object storing 5 and on a locked object storing -5. -/
theorem SetEditIndexLocked_then_IsEditIndexLocked_witness :
    (isInt32 5 ∧ (5 : Int) ≠ 0 ∧
      IsEditIndexLocked (SetEditIndexLocked ⟨1, 5⟩ true) = true) ∧
    (isInt32 (-5) ∧ (-5 : Int) ≠ -2147483648 ∧
      IsEditIndexLocked (SetEditIndexLocked ⟨1, -5⟩ false) = false) :=
  ⟨⟨by decide, by decide,
    (SetEditIndexLocked_then_IsEditIndexLocked ⟨1, 5⟩ (by decide)).1 (by decide)⟩,
   ⟨by decide, by decide,
    (SetEditIndexLocked_then_IsEditIndexLocked ⟨1, -5⟩ (by decide)).2 (by decide)⟩⟩

/-- C11 fails as stated on an object whose edit index was set to 0 through `SetEditIndex`:
after `SetEditIndexLocked (kQ3True)` the stored index is still 0 and `IsEditIndexLocked`
returns `kQ3False`. -/
theorem SetEditIndexLocked_zero_counterexample :
    SetEditIndex (e3shared_new ⟨0, 0⟩).1 0 = ⟨1, 0⟩ ∧
    SetEditIndexLocked (SetEditIndex (e3shared_new ⟨0, 0⟩).1 0) true = ⟨1, 0⟩ ∧
    IsEditIndexLocked (SetEditIndexLocked (SetEditIndex (e3shared_new ⟨0, 0⟩).1 0) true)
      = false := by
  decide

/-- C12 (as the code has it): for every value `n ≤ 2^31`, `GetEditIndex` after
`SetEditIndex (n)` returns `n`. -/
theorem SetEditIndex_then_GetEditIndex (this : TQ3SharedData) (n : Nat)
    (hn : n ≤ 2147483648) :
    GetEditIndex (SetEditIndex this n) = n := by
  simp only [GetEditIndex, SetEditIndex]
  unfold E3Integer_Abs toInt32 toUns32
  split <;> omega

/-- C12 on the values 7 and `2^31 - 1`. -/
theorem SetEditIndex_then_GetEditIndex_witness :
    ((7 : Nat) ≤ 2147483648 ∧ GetEditIndex (SetEditIndex ⟨1, 1⟩ 7) = 7) ∧
    ((2147483647 : Nat) ≤ 2147483648 ∧
      GetEditIndex (SetEditIndex ⟨1, 1⟩ 2147483647) = 2147483647) :=
  ⟨⟨by decide, SetEditIndex_then_GetEditIndex ⟨1, 1⟩ 7 (by decide)⟩,
   ⟨by decide, SetEditIndex_then_GetEditIndex ⟨1, 1⟩ 2147483647 (by decide)⟩⟩

/-- C12 fails as stated at `n = 2^32 - 1`: the field stores -1 and `GetEditIndex`
returns 1. -/
theorem SetEditIndex_roundtrip_counterexample :
    isUns32 4294967295 ∧
    SetEditIndex (e3shared_new ⟨0, 0⟩).1 4294967295 = ⟨1, -1⟩ ∧
    GetEditIndex (SetEditIndex (e3shared_new ⟨0, 0⟩).1 4294967295) = 1 ∧
    GetEditIndex (SetEditIndex (e3shared_new ⟨0, 0⟩).1 4294967295) ≠ 4294967295 := by
  decide

theorem E3Bitmap_bit_eq_testBit (b k : Nat) : (((b >>> k) &&& 0x01) != 0) = b.testBit k := by
  unfold Nat.testBit
  rw [Nat.and_comm]

theorem E3Bitmap_set_bit (b k : Nat) (hk : k < 8) :
    ((b ||| (1 <<< k) % 256) % 256).testBit k = true := by
  have h256 : (256 : Nat) = 2 ^ 8 := by norm_num
  have hlt : (1 <<< k) % 256 = 2 ^ k := by
    rw [Nat.one_shiftLeft]
    apply Nat.mod_eq_of_lt
    calc 2 ^ k < 2 ^ 8 := Nat.pow_lt_pow_right (by norm_num) hk
      _ = 256 := by norm_num
  rw [hlt, h256, Nat.testBit_mod_two_pow, Nat.testBit_or, Nat.testBit_two_pow_self]
  simp [hk]

theorem E3Bitmap_clear_bit (b k : Nat) (hk : k < 8) :
    ((b &&& (4294967295 ^^^ (1 <<< k) % 256)) % 256).testBit k = false := by
  have h256 : (256 : Nat) = 2 ^ 8 := by norm_num
  have h32 : (4294967295 : Nat) = 2 ^ 32 - 1 := by norm_num
  have hlt : (1 <<< k) % 256 = 2 ^ k := by
    rw [Nat.one_shiftLeft]
    apply Nat.mod_eq_of_lt
    calc 2 ^ k < 2 ^ 8 := Nat.pow_lt_pow_right (by norm_num) hk
      _ = 256 := by norm_num
  rw [hlt, h256, Nat.testBit_mod_two_pow, Nat.testBit_and, Nat.testBit_xor, h32,
    Nat.testBit_two_pow_sub_one, Nat.testBit_two_pow_self]
  have : k < 32 := by omega
  simp [this]

theorem E3Bitmap_byteOffset_lt (theBitmap : TQ3Bitmap) (x y : Nat)
    (hx : x < 8 * theBitmap.rowBytes) (hy : y < theBitmap.height)
    (hsize : theBitmap.rowBytes * theBitmap.height ≤ theBitmap.image.length) :
    E3Bitmap_byteOffset theBitmap x y < theBitmap.image.length := by
  unfold E3Bitmap_byteOffset
  have h1 : (y * theBitmap.rowBytes) % 4294967296 ≤ y * theBitmap.rowBytes :=
    Nat.mod_le _ _
  have h2 : x / 8 < theBitmap.rowBytes := by omega
  have h3 : (y + 1) * theBitmap.rowBytes ≤ theBitmap.height * theBitmap.rowBytes :=
    Nat.mul_le_mul_right _ hy
  have h4 : (y + 1) * theBitmap.rowBytes = y * theBitmap.rowBytes + theBitmap.rowBytes := by
    ring
  have h5 : theBitmap.height * theBitmap.rowBytes = theBitmap.rowBytes * theBitmap.height :=
    Nat.mul_comm _ _
  omega

/-- C13: for either bit order, every bitmap whose image holds its `rowBytes * height` bytes
and every pixel with `x < 8 * rowBytes` and `y < height`, `E3Bitmap_SetBit (bitmap, x, y, s)`
returns `kQ3Success` and afterwards `E3Bitmap_GetBit (bitmap, x, y)` returns `s`, for `s`
true and for `s` false. -/
theorem E3Bitmap_SetBit_then_GetBit (theBitmap : TQ3Bitmap) (x y : Nat) (theState : Bool)
    (hx : x < 8 * theBitmap.rowBytes) (hy : y < theBitmap.height)
    (hsize : theBitmap.rowBytes * theBitmap.height ≤ theBitmap.image.length) :
    (E3Bitmap_SetBit theBitmap x y theState).2 = kQ3Success ∧
    E3Bitmap_GetBit (E3Bitmap_SetBit theBitmap x y theState).1 x y = theState := by
  refine ⟨rfl, ?_⟩
  have hlt : (y * theBitmap.rowBytes) % 4294967296 + x / 8 < theBitmap.image.length :=
    E3Bitmap_byteOffset_lt theBitmap x y hx hy hsize
  have hs : x % 8 % 256 = x % 8 := by omega
  have hk : x % 8 < 8 := Nat.mod_lt _ (by norm_num)
  have hk7 : 7 - x % 8 < 8 := by omega
  have hget : ∀ v : Nat,
      (theBitmap.image.set ((y * theBitmap.rowBytes) % 4294967296 + x / 8) v).getD
        ((y * theBitmap.rowBytes) % 4294967296 + x / 8) 0 = v := by
    intro v
    rw [List.getD_eq_getElem?_getD, List.getElem?_set_self hlt]
    rfl
  cases hb : theBitmap.bitOrder <;> cases theState <;>
    simp only [E3Bitmap_GetBit, E3Bitmap_SetBit, E3Bitmap_byteOffset, hb, hget, hs,
      E3Bitmap_bit_eq_testBit, Bool.false_eq_true, if_false, if_true]
  · exact E3Bitmap_clear_bit _ _ hk7
  · exact E3Bitmap_set_bit _ _ hk7
  · exact E3Bitmap_clear_bit _ _ hk
  · exact E3Bitmap_set_bit _ _ hk

/-- C13 on a 16 x 2 bitmap in big-endian bit order: pixel (10, 1) is set, then cleared. -/
theorem E3Bitmap_SetBit_then_GetBit_witness :
    ((10 < 8 * 2 ∧ 1 < 2 ∧ 2 * 2 ≤ [0, 0, 0, 0].length) ∧
      E3Bitmap_GetBit
        (E3Bitmap_SetBit ⟨[0, 0, 0, 0], 16, 2, 2, TQ3Endian.kQ3EndianBig⟩ 10 1 true).1 10 1
        = true) ∧
    ((10 < 8 * 2 ∧ 1 < 2 ∧ 2 * 2 ≤ [255, 255, 255, 255].length) ∧
      E3Bitmap_GetBit
        (E3Bitmap_SetBit ⟨[255, 255, 255, 255], 16, 2, 2, TQ3Endian.kQ3EndianBig⟩ 10 1
          false).1 10 1 = false) :=
  ⟨⟨by decide,
    (E3Bitmap_SetBit_then_GetBit ⟨[0, 0, 0, 0], 16, 2, 2, TQ3Endian.kQ3EndianBig⟩ 10 1 true
      (by decide) (by decide) (by decide)).2⟩,
   ⟨by decide,
    (E3Bitmap_SetBit_then_GetBit ⟨[255, 255, 255, 255], 16, 2, 2, TQ3Endian.kQ3EndianBig⟩
      10 1 false (by decide) (by decide) (by decide)).2⟩⟩

/-- C14: `E3Bitmap_GetImageSize` at width 0 and height 1 returns `2^29 = 536870912`, where one
byte per 8 pixels of a row gives `ceil (0 / 8) * 1 = 0`: `theWidth - 1` wraps to `2^32 - 1`.
For every height the result at width 0 is `2^29 * height` modulo `2^32`, and for every
`TQ3Uns32` width of at least 1 and every height the result is `ceil (width / 8) * height`
modulo `2^32`. -/
theorem E3Bitmap_GetImageSize_zero_width :
    E3Bitmap_GetImageSize 0 1 = 536870912 ∧
    ((0 + 7) / 8 * 1) % 4294967296 = 0 ∧
    (∀ theHeight, E3Bitmap_GetImageSize 0 theHeight =
      (536870912 * theHeight) % 4294967296) ∧
    (∀ theWidth theHeight, 1 ≤ theWidth → isUns32 theWidth →
      E3Bitmap_GetImageSize theWidth theHeight =
        ((theWidth + 7) / 8 * theHeight) % 4294967296) := by
  refine ⟨by decide, by decide, ?_, ?_⟩
  · intro theHeight
    rfl
  · intro theWidth theHeight h1 hu
    unfold isUns32 at hu
    have h : ((theWidth + 4294967295) % 4294967296 / 8 + 1) % 4294967296 =
        (theWidth + 7) / 8 := by omega
    simp only [E3Bitmap_GetImageSize, h]

theorem TransBuffer.addAll_prims (submitted : List TransPrim) (buf : TransBuffer) :
    (buf.addAll submitted).prims = buf.prims ++ submitted := by
  induction submitted generalizing buf with
  | nil => simp [TransBuffer.addAll]
  | cons p ps ih =>
    have h := ih (buf.AddPrimitive p.vertices p.depth)
    simp only [TransBuffer.addAll, List.foldl_cons] at h ⊢
    rw [h]
    simp [TransBuffer.AddPrimitive]

theorem TransBuffer.insertionSort_filter_depth (l : List TransPrim) (d : ℚ) :
    (l.insertionSort TransPrim.farther).filter (fun p => decide (p.depth = d)) =
      l.filter (fun p => decide (p.depth = d)) := by
  have hpw : (l.filter (fun p => decide (p.depth = d))).Pairwise TransPrim.farther := by
    rw [List.pairwise_iff_forall_sublist]
    intro a b hab
    have ha : a ∈ l.filter (fun p => decide (p.depth = d)) := hab.subset (by simp)
    have hb : b ∈ l.filter (fun p => decide (p.depth = d)) := hab.subset (by simp)
    simp only [List.mem_filter, decide_eq_true_eq] at ha hb
    unfold TransPrim.farther
    rw [ha.2, hb.2]
  have hsub : List.Sublist (l.filter (fun p => decide (p.depth = d)))
      (l.insertionSort TransPrim.farther) :=
    List.sublist_insertionSort hpw (List.filter_sublist l)
  have hsub2 := hsub.filter (fun p => decide (p.depth = d))
  rw [List.filter_filter] at hsub2
  simp only [Bool.and_self] at hsub2
  have hlen := ((List.perm_insertionSort TransPrim.farther l).filter
    (fun p => decide (p.depth = d))).length_eq
  exact (hsub2.eq_of_length hlen.symm).symm

theorem TransBuffer.eq_of_sorted_of_filter_depth (l1 l2 : List TransPrim)
    (h1 : l1.Pairwise TransPrim.farther) (h2 : l2.Pairwise TransPrim.farther)
    (hf : ∀ d : ℚ, l1.filter (fun p => decide (p.depth = d)) =
      l2.filter (fun p => decide (p.depth = d))) : l1 = l2 := by
  induction l1 generalizing l2 with
  | nil =>
    cases l2 with
    | nil => rfl
    | cons b t2 =>
      have := hf b.depth
      simp at this
  | cons a t1 ih =>
    cases l2 with
    | nil =>
      have := hf a.depth
      simp at this
    | cons b t2 =>
      obtain ⟨ha, ht1⟩ := List.pairwise_cons.mp h1
      obtain ⟨hb, ht2⟩ := List.pairwise_cons.mp h2
      have hbmem : b ∈ (a :: t1).filter (fun p => decide (p.depth = b.depth)) := by
        rw [hf b.depth]; simp
      have hamem : a ∈ (b :: t2).filter (fun p => decide (p.depth = a.depth)) := by
        rw [← hf a.depth]; simp
      have hab : a.depth ≥ b.depth := by
        simp only [List.mem_filter, List.mem_cons, decide_eq_true_eq] at hbmem
        rcases hbmem.1 with h | h
        · rw [h]
        · exact ha b h
      have hba : b.depth ≥ a.depth := by
        simp only [List.mem_filter, List.mem_cons, decide_eq_true_eq] at hamem
        rcases hamem.1 with h | h
        · rw [h]
        · exact hb a h
      have hd : a.depth = b.depth := le_antisymm hba hab
      have hhead := hf a.depth
      simp only [List.filter_cons, decide_True, if_true, hd] at hhead
      have hab2 : a = b := (List.cons.inj hhead).1
      subst hab2
      have htail : t1 = t2 := by
        apply ih t2 ht1 ht2
        intro d
        have := hf d
        simp only [List.filter_cons] at this
        split at this
        · exact (List.cons.inj this).2
        · exact this
      rw [htail]

/-- C15: for every list of transparent primitives added to an empty transparent buffer,
`Flush` draws each of them once (the draw order is a permutation of the submission list),
in non-increasing depth, in strictly decreasing depth when all depths are distinct, and with
the primitives of any one depth in their submission order; the draw order is the only
arrangement with these properties, the stable descending sort of the submission list by
depth, and the buffer is empty afterwards. -/
theorem TransBuffer.Flush_draws_back_to_front (submitted : List TransPrim) :
    ((TransBuffer.empty.addAll submitted).Flush.1).Pairwise
      (fun a b => a.depth ≥ b.depth) ∧
    ((TransBuffer.empty.addAll submitted).Flush.1).Perm submitted ∧
    ((submitted.map (fun p => p.depth)).Nodup →
      ((TransBuffer.empty.addAll submitted).Flush.1).Pairwise
        (fun a b => a.depth > b.depth)) ∧
    (∀ d : ℚ, ((TransBuffer.empty.addAll submitted).Flush.1).filter
        (fun p => decide (p.depth = d)) =
      submitted.filter (fun p => decide (p.depth = d))) ∧
    (∀ order : List TransPrim,
      order.Pairwise (fun a b => a.depth ≥ b.depth) →
      (∀ d : ℚ, order.filter (fun p => decide (p.depth = d)) =
        submitted.filter (fun p => decide (p.depth = d))) →
      order = (TransBuffer.empty.addAll submitted).Flush.1) ∧
    (TransBuffer.empty.addAll submitted).Flush.2 = TransBuffer.empty := by
  have hprims : (TransBuffer.empty.addAll submitted).prims = submitted := by
    rw [TransBuffer.addAll_prims]; rfl
  have hdrawn : (TransBuffer.empty.addAll submitted).Flush.1 =
      submitted.insertionSort TransPrim.farther := by
    simp only [TransBuffer.Flush, hprims]
  rw [hdrawn]
  have hsorted : (submitted.insertionSort TransPrim.farther).Pairwise TransPrim.farther :=
    List.sorted_insertionSort TransPrim.farther submitted
  have hperm := List.perm_insertionSort TransPrim.farther submitted
  refine ⟨hsorted, hperm, ?_, TransBuffer.insertionSort_filter_depth submitted, ?_, rfl⟩
  · intro hnd
    have hnd2 : ((submitted.insertionSort TransPrim.farther).map (fun p => p.depth)).Nodup :=
      ((hperm.map (fun p => p.depth)).nodup_iff).mpr hnd
    have hne : (submitted.insertionSort TransPrim.farther).Pairwise
        (fun a b => a.depth ≠ b.depth) := by
      unfold List.Nodup at hnd2
      rw [List.pairwise_map] at hnd2
      exact hnd2
    exact List.Pairwise.imp₂ (fun a b hge hneq => lt_of_le_of_ne hge (Ne.symm hneq))
      hsorted hne
  · intro order ho hfo
    apply TransBuffer.eq_of_sorted_of_filter_depth order _ ho hsorted
    intro d
    rw [hfo d, TransBuffer.insertionSort_filter_depth]

/-- C15 on three primitives of depths 2, 5 and 2: the one of depth 5 is drawn first, the two
of depth 2 follow in their submission order. -/
theorem TransBuffer.Flush_draws_back_to_front_witness :
    [(⟨[2], 5⟩ : TransPrim), ⟨[1], 2⟩, ⟨[3], 2⟩].Pairwise (fun a b => a.depth ≥ b.depth) ∧
    (∀ d : ℚ, [(⟨[2], 5⟩ : TransPrim), ⟨[1], 2⟩, ⟨[3], 2⟩].filter
        (fun p => decide (p.depth = d)) =
      [(⟨[1], 2⟩ : TransPrim), ⟨[2], 5⟩, ⟨[3], 2⟩].filter (fun p => decide (p.depth = d))) ∧
    [(⟨[2], 5⟩ : TransPrim), ⟨[1], 2⟩, ⟨[3], 2⟩] =
      (TransBuffer.empty.addAll [⟨[1], 2⟩, ⟨[2], 5⟩, ⟨[3], 2⟩]).Flush.1 := by
  have hs : [(⟨[2], 5⟩ : TransPrim), ⟨[1], 2⟩, ⟨[3], 2⟩].Pairwise
      (fun a b => a.depth ≥ b.depth) := by
    simp
    norm_num
  have hf : ∀ d : ℚ, [(⟨[2], 5⟩ : TransPrim), ⟨[1], 2⟩, ⟨[3], 2⟩].filter
        (fun p => decide (p.depth = d)) =
      [(⟨[1], 2⟩ : TransPrim), ⟨[2], 5⟩, ⟨[3], 2⟩].filter
        (fun p => decide (p.depth = d)) := by
    intro d
    by_cases h5 : (5 : ℚ) = d
    · subst h5
      simp [List.filter_cons]
    · by_cases h2 : (2 : ℚ) = d
      · subst h2
        simp [List.filter_cons]
      · simp [List.filter_cons, h5, h2]
  exact ⟨hs, hf,
    (TransBuffer.Flush_draws_back_to_front [⟨[1], 2⟩, ⟨[2], 5⟩, ⟨[3], 2⟩]).2.2.2.2.1 _ hs hf⟩

namespace VBOCache

theorem mem_evictFor (budget needed : Nat) (entries : List VBOEntry) (x : VBOEntry)
    (h : x ∈ evictFor budget needed entries) : x ∈ entries := by
  induction entries with
  | nil => simp [evictFor] at h
  | cons e rest ih =>
    unfold evictFor at h
    split at h
    · exact h
    · exact List.mem_cons_of_mem _ (ih h)

theorem evictFor_sublist (budget needed : Nat) (entries : List VBOEntry) :
    List.Sublist (evictFor budget needed entries) entries := by
  induction entries with
  | nil => simp [evictFor]
  | cons e rest ih =>
    unfold evictFor
    split
    · exact List.Sublist.refl _
    · exact List.Sublist.cons _ ih

theorem GetOrCreate_hit_iff (cache : VBOCache) (g i : Nat) (d : List Nat) :
    (cache.GetOrCreate g i d).uploaded = false ↔
      ∃ e ∈ cache.entries, e.geometryId = g ∧ e.editIndex = i := by
  unfold GetOrCreate
  cases hf : cache.entries.find?
      (fun e => e.geometryId == g && e.editIndex == i) with
  | none =>
    simp only [Bool.true_eq_false, false_iff, not_exists, not_and]
    intro e he hg hi
    have := List.find?_eq_none.mp hf e he
    simp [hg, hi] at this
  | some e =>
    simp only [true_iff]
    have hm := List.mem_of_find?_eq_some hf
    have hp := List.find?_some hf
    simp only [Bool.and_eq_true, beq_iff_eq] at hp
    exact ⟨e, hm, hp.1, hp.2⟩

theorem GetOrCreate_entry (cache : VBOCache) (g i : Nat) (d : List Nat) :
    (cache.GetOrCreate g i d).entry ∈ (cache.GetOrCreate g i d).cache.entries ∧
    (cache.GetOrCreate g i d).entry.geometryId = g ∧
    (cache.GetOrCreate g i d).entry.editIndex = i ∧
    ((cache.GetOrCreate g i d).uploaded = false →
      (cache.GetOrCreate g i d).entry ∈ cache.entries) ∧
    ((cache.GetOrCreate g i d).uploaded = true →
      (cache.GetOrCreate g i d).entry =
        { geometryId := g, editIndex := i, vertexData := d }) := by
  unfold GetOrCreate
  cases hf : cache.entries.find?
      (fun e => e.geometryId == g && e.editIndex == i) with
  | none => simp
  | some e =>
    have hm := List.mem_of_find?_eq_some hf
    have hp := List.find?_some hf
    simp only [Bool.and_eq_true, beq_iff_eq] at hp
    simp [hm, hp.1, hp.2]

theorem GetOrCreate_keeps_one_index (cache : VBOCache) (g i : Nat) (d : List Nat)
    (hwf : cache.oneEntryPerGeometry) :
    (cache.GetOrCreate g i d).cache.oneEntryPerGeometry ∧
    ∀ x ∈ (cache.GetOrCreate g i d).cache.entries, x.geometryId = g → x.editIndex = i := by
  unfold oneEntryPerGeometry at *
  unfold GetOrCreate
  cases hf : cache.entries.find?
      (fun e => e.geometryId == g && e.editIndex == i) with
  | none =>
    dsimp only
    have hsub : List.Sublist
        (evictFor cache.budget d.length
          (cache.entries.filter (fun e => e.geometryId != g))) cache.entries :=
      (evictFor_sublist _ _ _).trans (List.filter_sublist _)
    have hkept : ∀ x ∈ evictFor cache.budget d.length
        (cache.entries.filter (fun e => e.geometryId != g)), x.geometryId ≠ g := by
      intro x hx
      have := mem_evictFor _ _ _ _ hx
      simpa using (List.mem_filter.mp this).2
    refine ⟨?_, ?_⟩
    · rw [List.map_append, List.nodup_append]
      refine ⟨(hsub.map _).nodup hwf, by simp, ?_⟩
      intro a ha hb
      simp only [List.map_cons, List.map_nil, List.mem_singleton] at hb
      obtain ⟨x, hx, hxa⟩ := List.mem_map.mp ha
      exact hkept x hx (hxa.trans hb)
    · intro x hx hg
      rcases List.mem_append.mp hx with h | h
      · exact absurd hg (hkept x h)
      · simp only [List.mem_singleton] at h
        rw [h]
  | some e =>
    dsimp only
    have hm := List.mem_of_find?_eq_some hf
    have hp := List.find?_some hf
    simp only [Bool.and_eq_true, beq_iff_eq] at hp
    have hperm : (cache.entries.erase e ++ [e]).Perm cache.entries :=
      (List.perm_append_comm).trans (List.perm_cons_erase hm).symm
    refine ⟨((hperm.map _).nodup_iff).mpr hwf, ?_⟩
    intro x hx hg
    have hxm : x ∈ cache.entries := hperm.subset hx
    have heq : x = e :=
      List.inj_on_of_nodup_map hwf hxm hm (hg.trans hp.1.symm)
    rw [heq]
    exact hp.2

end VBOCache

/-- C16: `GetOrCreate (geometryId, editIndex, data)` returns an existing entry without
uploading exactly when the cache stores an entry for `geometryId` with that edit index;
otherwise it uploads `data` and stores it under `editIndex`. Hence a second call with the
same edit index is a hit, and on a cache with one entry per geometry (which `GetOrCreate`
preserves) a call with any other edit index is a miss; in particular, for a geometry whose
edit index is unlocked, a call after `Edited` is a miss, and a call with the geometry
unchanged is a hit. -/
theorem VBOCache.GetOrCreate_valid_by_editIndex (cache : VBOCache) (g i : Nat)
    (d d1 : List Nat) (geometry : TQ3SharedData)
    (hwf : cache.oneEntryPerGeometry) (hr : isInt32 geometry.editIndex)
    (hu : IsEditIndexLocked geometry = false) :
    ((cache.GetOrCreate g i d).uploaded = false ↔
      ∃ e ∈ cache.entries, e.geometryId = g ∧ e.editIndex = i) ∧
    ((cache.GetOrCreate g i d).uploaded = false →
      (cache.GetOrCreate g i d).entry ∈ cache.entries ∧
      (cache.GetOrCreate g i d).entry.geometryId = g ∧
      (cache.GetOrCreate g i d).entry.editIndex = i) ∧
    ((cache.GetOrCreate g i d).uploaded = true →
      (cache.GetOrCreate g i d).entry =
        { geometryId := g, editIndex := i, vertexData := d } ∧
      { geometryId := g, editIndex := i, vertexData := d } ∈
        (cache.GetOrCreate g i d).cache.entries) ∧
    ((cache.GetOrCreate g i d).cache.GetOrCreate g i d1).uploaded = false ∧
    (∀ j, j ≠ i → ((cache.GetOrCreate g i d).cache.GetOrCreate g j d1).uploaded = true) ∧
    ((cache.GetOrCreateFor g geometry d).cache.GetOrCreateFor g geometry d1).uploaded
      = false ∧
    ((cache.GetOrCreateFor g geometry d).cache.GetOrCreateFor g (Edited geometry).1 d1).uploaded
      = true ∧
    (cache.GetOrCreate g i d).cache.oneEntryPerGeometry := by
  have hent := VBOCache.GetOrCreate_entry cache g i d
  have hsecond : ∀ (k : Nat) (dd : List Nat),
      ((cache.GetOrCreate g k dd).cache.GetOrCreate g k d1).uploaded = false := by
    intro k dd
    have hk := VBOCache.GetOrCreate_entry cache g k dd
    exact (VBOCache.GetOrCreate_hit_iff _ g k d1).mpr ⟨_, hk.1, hk.2.1, hk.2.2.1⟩
  have hother : ∀ (k j : Nat) (dd : List Nat), j ≠ k →
      ((cache.GetOrCreate g k dd).cache.GetOrCreate g j d1).uploaded = true := by
    intro k j dd hjk
    have hone := (VBOCache.GetOrCreate_keeps_one_index cache g k dd hwf).2
    cases hup : ((cache.GetOrCreate g k dd).cache.GetOrCreate g j d1).uploaded with
    | true => rfl
    | false =>
      obtain ⟨e, he, heg, hei⟩ := (VBOCache.GetOrCreate_hit_iff _ g j d1).mp hup
      exact absurd ((hone e he heg).symm.trans hei).symm hjk
  refine ⟨VBOCache.GetOrCreate_hit_iff cache g i d,
    fun h => ⟨hent.2.2.2.1 h, hent.2.1, hent.2.2.1⟩,
    fun h => ⟨hent.2.2.2.2 h, ?_⟩,
    hsecond i d, fun j hj => hother i j d hj, hsecond _ d, ?_,
    (VBOCache.GetOrCreate_keeps_one_index cache g i d hwf).1⟩
  · have := hent.1
    rw [hent.2.2.2.2 h] at this
    exact this
  · have hlt := (OpaqueTQ3Object.E3Shared_Edited_raises geometry hr hu).1
    exact hother _ _ d (Nat.ne_of_gt hlt)

/-- C16 on an empty cache and a new geometry: the first call uploads, the second is a hit,
and the call after `Edited` uploads again. -/
theorem VBOCache.GetOrCreate_valid_by_editIndex_witness :
    (VBOCache.oneEntryPerGeometry ⟨[], 100⟩ ∧ isInt32 (1 : Int) ∧
      IsEditIndexLocked ⟨1, 1⟩ = false) ∧
    ((VBOCache.GetOrCreateFor ⟨[], 100⟩ 4 ⟨1, 1⟩ [9, 9]).uploaded = true) ∧
    (((VBOCache.GetOrCreateFor ⟨[], 100⟩ 4 ⟨1, 1⟩ [9, 9]).cache.GetOrCreateFor 4 ⟨1, 1⟩
        [9, 9]).uploaded = false) ∧
    (((VBOCache.GetOrCreateFor ⟨[], 100⟩ 4 ⟨1, 1⟩ [9, 9]).cache.GetOrCreateFor 4
        (Edited ⟨1, 1⟩).1 [8, 8]).uploaded = true) :=
  ⟨⟨by decide, by decide, by decide⟩, by decide,
   (VBOCache.GetOrCreate_valid_by_editIndex ⟨[], 100⟩ 4 1 [9, 9] [9, 9] ⟨1, 1⟩
      (by decide) (by decide) (by decide)).2.2.2.2.2.1,
   (VBOCache.GetOrCreate_valid_by_editIndex ⟨[], 100⟩ 4 1 [9, 9] [8, 8] ⟨1, 1⟩
      (by decide) (by decide) (by decide)).2.2.2.2.2.2.1⟩

/-- C17: for TriMesh data without vertex colors and with face colors, the diffuse color
`CalcTriMeshVertState` resolves for any vertex of face `inFaceNum` is the color of that face,
whatever the geometry state and the view state hold; so it does not change with the
view-level default. -/
theorem CalcTriMeshVertState_face_color (inVertNum inFaceNum : Nat) (inData : MeshArrays)
    (mGeomState mViewState : ColorState) (faceColors : List TQ3ColorRGB)
    (hvert : inData.vertColor = none) (hface : inData.faceColor = some faceColors)
    (hnum : inFaceNum < faceColors.length) :
    (CalcTriMeshVertState inVertNum inFaceNum inData mGeomState mViewState).diffuseColor =
      faceColors[inFaceNum] ∧
    ∀ otherView : ColorState,
      (CalcTriMeshVertState inVertNum inFaceNum inData mGeomState otherView).diffuseColor =
        (CalcTriMeshVertState inVertNum inFaceNum inData mGeomState mViewState).diffuseColor := by
  have h : ∀ view : ColorState,
      (CalcTriMeshVertState inVertNum inFaceNum inData mGeomState view).diffuseColor =
        faceColors[inFaceNum] := by
    intro view
    simp [CalcTriMeshVertState, attributeAt, resolveChannel, hvert, hface,
      List.getElem?_eq_getElem hnum]
  exact ⟨h mViewState, fun otherView => (h otherView).trans (h mViewState).symm⟩

/-- C17 on a mesh with two faces, red and green, under a blue view default: a vertex of
face 1 resolves to green. -/
theorem CalcTriMeshVertState_face_color_witness :
    ((⟨none, none, none, none, none, none, none, some [⟨1, 0, 0⟩, ⟨0, 1, 0⟩], none, none,
        none, none⟩ : MeshArrays).vertColor = none ∧
      1 < [(⟨1, 0, 0⟩ : TQ3ColorRGB), ⟨0, 1, 0⟩].length) ∧
    (CalcTriMeshVertState 2 1
      ⟨none, none, none, none, none, none, none, some [⟨1, 0, 0⟩, ⟨0, 1, 0⟩], none, none,
        none, none⟩
      ⟨none, none, none, 0, 0, 1, TQ3Switch.kQ3Off⟩
      ⟨some ⟨0, 0, 1⟩, none, none, 0, 0, 1, TQ3Switch.kQ3Off⟩).diffuseColor = ⟨0, 1, 0⟩ :=
  ⟨⟨rfl, by decide⟩,
   (CalcTriMeshVertState_face_color 2 1
      ⟨none, none, none, none, none, none, none, some [⟨1, 0, 0⟩, ⟨0, 1, 0⟩], none, none,
        none, none⟩
      ⟨none, none, none, 0, 0, 1, TQ3Switch.kQ3Off⟩
      ⟨some ⟨0, 0, 1⟩, none, none, 0, 0, 1, TQ3Switch.kQ3Off⟩
      [⟨1, 0, 0⟩, ⟨0, 1, 0⟩] rfl rfl (by decide)).1⟩

end Quesa
